import Mathlib

/-!
Formal model of the 2048 game core of this repository:
`game/utils.py` (`combine_line`), `game/board.py` (`Board`) and
`ai/spawner.py` (`AISpawner`).

Modelling conventions:
* numpy integer grids become `List (List Nat)`; numpy arrays are always
  rectangular, so where a proof needs rectangularity it appears as an
  explicit hypothesis.  `np.ndarray.T` on the square game grids is modelled
  by `transposeSq`, and `np.where(grid == 0)` (row-major) by `emptyCells`.
* Python floats are modelled as exact numbers: every float the spawner
  computes is a rational except for `np.std` (a real square root) and
  `np.log2`; the faithful definitions live in `ℝ`, and computable
  companions (integers, and kernel-evaluable `Frac` fractions) with
  bridging lemmas are provided for grids of power-of-two tiles below 64,
  which covers every concrete board these claims evaluate.
* the process-wide random draws (`np.random.choice`, `np.random.randint`)
  are passed in as explicit arguments, constrained exactly as numpy
  guarantees them (a spawned value is 2 or 4, an index is in range).
-/

set_option maxRecDepth 4000

abbrev Grid := List (List Nat)

/-- Value of cell `(r, c)`; out-of-range reads default to 0 (never used on
in-range accesses, which is all the Python code performs). -/
def entry (g : Grid) (r c : Nat) : Nat := (g.getD r []).getD c 0

/-- `grid[r][c] = v` (numpy single-cell assignment). -/
def setCell : Grid → Nat → Nat → Nat → Grid
  | [], _, _, _ => []
  | row :: rest, 0, c, v => row.set c v :: rest
  | row :: rest, r + 1, c, v => row :: setCell rest r c v

/-- Transpose of a square grid, modelling `np.ndarray.T` on the n×n game
grid (the only shape the code transposes). -/
def transposeSq (g : Grid) : Grid :=
  (List.range g.length).map (fun j => g.map (fun row => row.getD j 0))

/-- `np.max(grid)` over all entries. -/
def gridMax (g : Grid) : Nat := g.flatten.foldr max 0

/-- `np.sum(grid == 0)`: number of empty cells. -/
def emptyCount (g : Grid) : Nat := (g.flatten.filter (· = 0)).length

/-- `np.count_nonzero(grid)`. -/
def countNonzero (g : Grid) : Nat := (g.flatten.filter (· ≠ 0)).length

/-- Row-major list of coordinates of empty cells, as produced by
`list(zip(*np.where(grid == 0)))`. -/
def emptyCells (g : Grid) : List (Nat × Nat) :=
  ((List.range g.length).map (fun i =>
    (List.range (g.getD i []).length).filterMap (fun j =>
      if (g.getD i []).getD j 1 = 0 then some (i, j) else none))).flatten

/-- The compress-and-merge scan of `combine_line` (`game/utils.py`,
the `while i < len(non_zero)` loop): walks the nonzero values once,
merging the current value with the next one when they are equal and
skipping past both (so a freshly merged tile is never reconsidered). -/
def mergeScan : List Nat → List Nat × Nat
  | [] => ([], 0)
  | [a] => ([a], 0)
  | a :: b :: rest =>
    if a = b then
      let p := mergeScan rest
      (a * 2 :: p.1, p.2 + a * 2)
    else
      let p := mergeScan (b :: rest)
      (a :: p.1, p.2)

/-- `combine_line` from `game/utils.py`: drop zeros, run the merge scan,
pad with zeros on the right back to the input length. -/
def combine_line (line : List Nat) : List Nat × Nat :=
  let non_zero := line.filter (· ≠ 0)
  let p := mergeScan non_zero
  (p.1 ++ List.replicate (line.length - p.1.length) 0, p.2)

/-- Game state of `Board` (`game/board.py`).  `highscore` is an integer
because it is parsed from the persisted text file. -/
structure Board where
  grid : Grid
  score : Nat
  high_tile : Nat
  game_over : Bool
  won : Bool
  highscore : Int
deriving DecidableEq

/-- One line of `Board.move`: reverse before and after resolving for
`right`/`down`, as in the source. -/
def processLine (direction : String) (line : List Nat) : List Nat × Nat :=
  if direction = "right" ∨ direction = "down" then
    let p := combine_line line.reverse
    (p.1.reverse, p.2)
  else
    combine_line line

/-- The per-line results of a move: vertical moves operate on the
transposed grid, exactly as `Board.move` does. -/
def resolvedRows (direction : String) (g : Grid) : List (List Nat × Nat) :=
  (if direction = "up" ∨ direction = "down" then transposeSq g else g).map
    (processLine direction)

/-- The reconstructed grid of `Board.move` before the changed-grid check. -/
def resolvedGrid (direction : String) (g : Grid) : Grid :=
  let rows := (resolvedRows direction g).map Prod.fst
  if direction = "up" ∨ direction = "down" then transposeSq rows else rows

/-- Total `score_gained` of a move. -/
def moveGain (direction : String) (g : Grid) : Nat :=
  ((resolvedRows direction g).map Prod.snd).sum

/-- `Board.move` (`game/board.py`): returns the updated board and the
success flag.  Python mutates in place and returns a `bool`; here the pair
carries both. -/
def Board.move (b : Board) (direction : String) : Board × Bool :=
  if ¬(direction = "up" ∨ direction = "down" ∨ direction = "left" ∨ direction = "right") then
    (b, false)
  else
    let new_grid := resolvedGrid direction b.grid
    if new_grid = b.grid then
      (b, false)
    else
      let score' := b.score + moveGain direction b.grid
      let high_tile' := gridMax new_grid
      ({ b with
          grid := new_grid
          score := score'
          highscore := max (score' : Int) b.highscore
          high_tile := high_tile'
          won := if 2048 ≤ high_tile' ∧ b.won = false then true else b.won }, true)

/-- A board used to instantiate hypotheses of several witness theorems. -/
def sampleBoard : Board :=
  { grid := [[2, 4, 0, 0], [0, 0, 0, 0], [0, 0, 0, 0], [0, 0, 0, 0]]
    score := 0
    high_tile := 4
    game_over := false
    won := false
    highscore := 0 }

/-- `AISpawner._is_terminal` (`ai/spawner.py`): a state is terminal iff the
grid has no empty cell and no direction's move succeeds. -/
def isTerminal (b : Board) : Bool :=
  if b.grid.flatten.any (· = 0) then false
  else !(["up", "down", "left", "right"].any (fun d => (b.move d).2))

lemma move_invalid (b : Board) (d : String)
    (h : ¬(d = "up" ∨ d = "down" ∨ d = "left" ∨ d = "right")) :
    b.move d = (b, false) := by
  simp [Board.move, h]

lemma move_unchanged (b : Board) (d : String)
    (h : resolvedGrid d b.grid = b.grid) : b.move d = (b, false) := by
  by_cases hv : d = "up" ∨ d = "down" ∨ d = "left" ∨ d = "right"
  · simp [Board.move, hv, h]
  · simp [Board.move, hv]

lemma move_changed (b : Board) (d : String)
    (hv : d = "up" ∨ d = "down" ∨ d = "left" ∨ d = "right")
    (hc : ¬resolvedGrid d b.grid = b.grid) :
    b.move d =
      ({ b with
          grid := resolvedGrid d b.grid
          score := b.score + moveGain d b.grid
          highscore := max ((b.score + moveGain d b.grid : Nat) : Int) b.highscore
          high_tile := gridMax (resolvedGrid d b.grid)
          won := if 2048 ≤ gridMax (resolvedGrid d b.grid) ∧ b.won = false then true
                 else b.won }, true) := by
  simp [Board.move, hv, hc]

lemma move_snd_true_iff (b : Board) (d : String) :
    (b.move d).2 = true ↔
      ((d = "up" ∨ d = "down" ∨ d = "left" ∨ d = "right") ∧
        ¬resolvedGrid d b.grid = b.grid) := by
  by_cases hv : d = "up" ∨ d = "down" ∨ d = "left" ∨ d = "right"
  · by_cases hc : resolvedGrid d b.grid = b.grid
    · rw [move_unchanged b d hc]
      simp [hv, hc]
    · rw [move_changed b d hv hc]
      simp [hv, hc]
  · rw [move_invalid b d hv]
    simp [hv]

lemma mergeScan_eq_merge (b : Nat) (rest : List Nat) :
    mergeScan (b :: b :: rest) =
      (b * 2 :: (mergeScan rest).1, (mergeScan rest).2 + b * 2) := by
  simp [mergeScan]

lemma mergeScan_eq_skip (a b : Nat) (rest : List Nat) (h : a ≠ b) :
    mergeScan (a :: b :: rest) =
      (a :: (mergeScan (b :: rest)).1, (mergeScan (b :: rest)).2) := by
  simp [mergeScan, h]

lemma mergeScan_sum (l : List Nat) : (mergeScan l).1.sum = l.sum := by
  induction l using mergeScan.induct with
  | case1 => simp [mergeScan]
  | case2 a => simp [mergeScan]
  | case3 b rest ih => rw [mergeScan_eq_merge]; simp only [List.sum_cons] at ih ⊢; omega
  | case4 a b rest h ih =>
    rw [mergeScan_eq_skip a b rest h]
    simp only [List.sum_cons] at ih ⊢
    omega

lemma mergeScan_length (l : List Nat) : (mergeScan l).1.length ≤ l.length := by
  induction l using mergeScan.induct with
  | case1 => simp [mergeScan]
  | case2 a => simp [mergeScan]
  | case3 b rest ih => rw [mergeScan_eq_merge]; simp only [List.length_cons] at ih ⊢; omega
  | case4 a b rest h ih =>
    rw [mergeScan_eq_skip a b rest h]
    simp only [List.length_cons] at ih ⊢
    omega

lemma mergeScan_mem (l : List Nat) (x : Nat) (hx : x ∈ (mergeScan l).1) :
    x ∈ l ∨ ∃ y ∈ l, x = y * 2 := by
  induction l using mergeScan.induct with
  | case1 => simp [mergeScan] at hx
  | case2 a => simp [mergeScan] at hx; simp [hx]
  | case3 b rest ih =>
    rw [mergeScan_eq_merge] at hx
    rcases List.mem_cons.mp hx with h | h
    · exact Or.inr ⟨b, by simp, h⟩
    · rcases ih h with h' | ⟨y, hy, hxy⟩
      · exact Or.inl (by simp [h'])
      · exact Or.inr ⟨y, by simp [hy], hxy⟩
  | case4 a b rest h ih =>
    rw [mergeScan_eq_skip a b rest h] at hx
    rcases List.mem_cons.mp hx with h' | h'
    · exact Or.inl (by simp [h'])
    · rcases ih h' with h'' | ⟨y, hy, hxy⟩
      · exact Or.inl (List.mem_cons_of_mem a h'')
      · exact Or.inr ⟨y, List.mem_cons_of_mem a hy, hxy⟩

lemma mergeScan_nonzero (l : List Nat) (h : ∀ x ∈ l, x ≠ 0) :
    ∀ x ∈ (mergeScan l).1, x ≠ 0 := by
  intro x hx
  rcases mergeScan_mem l x hx with h' | ⟨y, hy, hxy⟩
  · exact h x h'
  · have := h y hy
    omega

lemma mergeScan_of_chain (l : List Nat)
    (hch : List.Chain' (fun x y => x = y → x = 0) l) (hnz : ∀ x ∈ l, x ≠ 0) :
    mergeScan l = (l, 0) := by
  induction l using mergeScan.induct with
  | case1 => simp [mergeScan]
  | case2 a => simp [mergeScan]
  | case3 b rest ih =>
    exact absurd ((List.chain'_cons.mp hch).1 rfl) (hnz b (by simp))
  | case4 a b rest h ih =>
    have := ih (List.chain'_cons.mp hch).2 (fun x hx => hnz x (by simp [hx]))
    simp [mergeScan, h, this]

lemma filter_ne_zero_sum (l : List Nat) : (l.filter (· ≠ 0)).sum = l.sum := by
  induction l with
  | nil => simp
  | cons a t ih =>
    by_cases ha : a = 0
    · simpa [List.filter_cons, ha] using ih
    · simpa [List.filter_cons, ha] using ih

lemma combine_line_eq (l : List Nat) :
    combine_line l =
      ((mergeScan (l.filter (· ≠ 0))).1 ++
        List.replicate (l.length - (mergeScan (l.filter (· ≠ 0))).1.length) 0,
       (mergeScan (l.filter (· ≠ 0))).2) := rfl

lemma combine_line_length (l : List Nat) : (combine_line l).1.length = l.length := by
  have h1 := mergeScan_length (l.filter (· ≠ 0))
  have h2 : (l.filter (· ≠ 0)).length ≤ l.length := List.length_filter_le _ _
  rw [combine_line_eq]
  simp only [List.length_append, List.length_replicate]
  omega

lemma combine_line_sum (l : List Nat) : (combine_line l).1.sum = l.sum := by
  rw [combine_line_eq]
  simp only [List.sum_append, mergeScan_sum, filter_ne_zero_sum]
  simp [List.sum_replicate]

lemma combine_line_mem (l : List Nat) (x : Nat) (hx : x ∈ (combine_line l).1) :
    x = 0 ∨ x ∈ l ∨ ∃ y ∈ l, x = y * 2 := by
  rw [combine_line_eq] at hx
  rcases List.mem_append.mp hx with h | h
  · rcases mergeScan_mem _ x h with h' | ⟨y, hy, hxy⟩
    · exact Or.inr (Or.inl (List.mem_of_mem_filter h'))
    · exact Or.inr (Or.inr ⟨y, List.mem_of_mem_filter hy, hxy⟩)
  · exact Or.inl (List.eq_of_mem_replicate h)

lemma combine_line_fix_form (m : List Nat) (k : Nat) (hnz : ∀ x ∈ m, x ≠ 0)
    (hch : List.Chain' (fun x y => x = y → x = 0) (m ++ List.replicate k 0)) :
    combine_line (m ++ List.replicate k 0) = (m ++ List.replicate k 0, 0) := by
  have hchm : List.Chain' (fun x y => x = y → x = 0) m := hch.left_of_append
  have hfil : (m ++ List.replicate k 0).filter (· ≠ 0) = m := by
    rw [List.filter_append]
    have h1 : m.filter (· ≠ 0) = m :=
      List.filter_eq_self.mpr (by intro a ha; simpa using hnz a ha)
    have h2 : (List.replicate k 0).filter (· ≠ 0) = ([] : List Nat) := by
      simp [List.filter_replicate]
    rw [h1, h2, List.append_nil]
  rw [combine_line_eq, hfil, mergeScan_of_chain m hchm hnz]
  simp

lemma combine_line_idem (l : List Nat)
    (h : List.Chain' (fun x y => x = y → x = 0) ((combine_line l).1)) :
    combine_line ((combine_line l).1) = ((combine_line l).1, 0) := by
  have hnz : ∀ x ∈ (mergeScan (l.filter (· ≠ 0))).1, x ≠ 0 :=
    mergeScan_nonzero _ (by intro x hx; simpa using (List.mem_filter.mp hx).2)
  rw [combine_line_eq]
  rw [combine_line_eq] at h
  exact combine_line_fix_form _ _ hnz h

lemma processLine_length (d : String) (l : List Nat) :
    (processLine d l).1.length = l.length := by
  unfold processLine
  split
  · simp [combine_line_length]
  · simp [combine_line_length]

lemma processLine_sum (d : String) (l : List Nat) :
    (processLine d l).1.sum = l.sum := by
  unfold processLine
  split
  · simp [List.sum_reverse, combine_line_sum]
  · simp [combine_line_sum]

lemma processLine_mem (d : String) (l : List Nat) (x : Nat)
    (hx : x ∈ (processLine d l).1) : x = 0 ∨ x ∈ l ∨ ∃ y ∈ l, x = y * 2 := by
  unfold processLine at hx
  split at hx
  · simp only at hx
    rcases combine_line_mem _ x (List.mem_reverse.mp hx) with h | h | ⟨y, hy, hxy⟩
    · exact Or.inl h
    · exact Or.inr (Or.inl (List.mem_reverse.mp h))
    · exact Or.inr (Or.inr ⟨y, List.mem_reverse.mp hy, hxy⟩)
  · exact combine_line_mem _ x hx

lemma transposeSq_length (g : Grid) : (transposeSq g).length = g.length := by
  simp [transposeSq]

lemma transposeSq_mem (g : Grid) (x : Nat) (hx : x ∈ (transposeSq g).flatten) :
    x = 0 ∨ x ∈ g.flatten := by
  rcases List.mem_flatten.mp hx with ⟨row, hrow, hxrow⟩
  simp only [transposeSq, List.mem_map, List.mem_range] at hrow
  rcases hrow with ⟨j, _, rfl⟩
  rcases List.mem_map.mp hxrow with ⟨r, hr, rfl⟩
  by_cases hj : j < r.length
  · exact Or.inr (List.mem_flatten.mpr ⟨r, hr, by rw [List.getD_eq_getElem r 0 hj]; simp⟩)
  · left
    exact List.getD_eq_default r 0 (by omega)

lemma resolvedGrid_mem (d : String) (g : Grid) (x : Nat)
    (hx : x ∈ (resolvedGrid d g).flatten) : x = 0 ∨ x ∈ g.flatten ∨ ∃ y ∈ g.flatten, x = y * 2 := by
  unfold resolvedGrid resolvedRows at hx
  by_cases hv : d = "up" ∨ d = "down"
  · simp only [if_pos hv] at hx
    rcases transposeSq_mem _ x hx with h | h
    · exact Or.inl h
    · rw [List.map_map] at h
      rcases List.mem_flatten.mp h with ⟨row, hrow, hxrow⟩
      rcases List.mem_map.mp hrow with ⟨t, ht, rfl⟩
      rcases processLine_mem d t x hxrow with h' | h' | ⟨y, hy, hxy⟩
      · exact Or.inl h'
      · rcases transposeSq_mem g x (List.mem_flatten.mpr ⟨t, ht, h'⟩) with h'' | h''
        · exact Or.inl h''
        · exact Or.inr (Or.inl h'')
      · rcases transposeSq_mem g y (List.mem_flatten.mpr ⟨t, ht, hy⟩) with h'' | h''
        · subst h''; exact Or.inl (by omega)
        · exact Or.inr (Or.inr ⟨y, h'', hxy⟩)
  · simp only [if_neg hv] at hx
    rw [List.map_map] at hx
    rcases List.mem_flatten.mp hx with ⟨row, hrow, hxrow⟩
    rcases List.mem_map.mp hrow with ⟨t, ht, rfl⟩
    rcases processLine_mem d t x hxrow with h' | h' | ⟨y, hy, hxy⟩
    · exact Or.inl h'
    · exact Or.inr (Or.inl (List.mem_flatten.mpr ⟨t, ht, h'⟩))
    · exact Or.inr (Or.inr ⟨y, List.mem_flatten.mpr ⟨t, ht, hy⟩, hxy⟩)

lemma resolvedGrid_left (g : Grid) :
    resolvedGrid "left" g = g.map (fun row => (combine_line row).1) := by
  unfold resolvedGrid resolvedRows processLine
  simp

lemma sum_map_range_getD (row : List Nat) :
    ((List.range row.length).map (fun j => row.getD j 0)).sum = row.sum := by
  induction row with
  | nil => simp
  | cons a t ih =>
    rw [List.length_cons, List.range_succ_eq_map]
    simp only [List.map_cons, List.map_map, List.sum_cons, List.getD_cons_zero]
    have hcomp : ((fun j => (a :: t).getD j 0) ∘ Nat.succ) = fun j => t.getD j 0 := by
      funext j
      simp
    rw [hcomp, ih]

lemma sum_comm_getD (rows : List (List Nat)) (n : Nat) :
    ((List.range n).map (fun j => (rows.map (fun row => row.getD j 0)).sum)).sum =
      (rows.map (fun row => ((List.range n).map (fun j => row.getD j 0)).sum)).sum := by
  induction rows with
  | nil => simp
  | cons r t ih =>
    simp only [List.map_cons, List.sum_cons]
    rw [List.sum_map_add, ih]

lemma transposeSq_flatten_sum (g : Grid) (h : ∀ row ∈ g, row.length = g.length) :
    (transposeSq g).flatten.sum = g.flatten.sum := by
  rw [List.sum_flatten, List.sum_flatten]
  unfold transposeSq
  rw [List.map_map]
  have hLHS :
      (List.sum ∘ fun j => g.map (fun row => row.getD j 0)) =
        fun j => (g.map (fun row => row.getD j 0)).sum := rfl
  rw [hLHS, sum_comm_getD]
  congr 1
  apply List.map_congr_left
  intro row hrow
  rw [← h row hrow, sum_map_range_getD]

lemma map_processLine_flatten_sum (d : String) (rows : List (List Nat)) :
    ((rows.map (fun row => (processLine d row).1)).flatten).sum = rows.flatten.sum := by
  rw [List.sum_flatten, List.map_map, List.sum_flatten]
  congr 1
  apply List.map_congr_left
  intro row _
  exact processLine_sum d row

lemma resolvedGrid_flatten_sum (d : String) (g : Grid)
    (h : ∀ row ∈ g, row.length = g.length) :
    (resolvedGrid d g).flatten.sum = g.flatten.sum := by
  unfold resolvedGrid resolvedRows
  by_cases hv : d = "up" ∨ d = "down"
  · simp only [if_pos hv, List.map_map]
    have hmap :
        (transposeSq g).map (Prod.fst ∘ processLine d) =
          (transposeSq g).map (fun row => (processLine d row).1) := rfl
    rw [hmap]
    have hX : ∀ row ∈ (transposeSq g).map (fun row => (processLine d row).1),
        row.length = ((transposeSq g).map (fun row => (processLine d row).1)).length := by
      intro row hrow
      rcases List.mem_map.mp hrow with ⟨t, ht, rfl⟩
      rcases List.mem_map.mp
        (show t ∈ (List.range g.length).map
          (fun j => g.map (fun row => row.getD j 0)) from ht) with ⟨j, _, rfl⟩
      simp [processLine_length, transposeSq_length]
    rw [transposeSq_flatten_sum _ hX, map_processLine_flatten_sum,
      transposeSq_flatten_sum g h]
  · simp only [if_neg hv, List.map_map]
    have hmap :
        g.map (Prod.fst ∘ processLine d) = g.map (fun row => (processLine d row).1) := rfl
    rw [hmap, map_processLine_flatten_sum]

lemma le_foldr_max (l : List Nat) (x : Nat) (hx : x ∈ l) : x ≤ l.foldr max 0 := by
  induction l with
  | nil => simp at hx
  | cons a t ih =>
    rcases List.mem_cons.mp hx with rfl | h
    · exact le_max_left _ _
    · exact le_trans (ih h) (le_max_right _ _)

lemma foldr_max_le (l : List Nat) (c : Nat) (h : ∀ x ∈ l, x ≤ c) :
    l.foldr max 0 ≤ c := by
  induction l with
  | nil => simp
  | cons a t ih =>
    simp only [List.foldr_cons]
    exact max_le (h a (by simp)) (ih fun x hx => h x (by simp [hx]))

lemma setCell_zero_mem (g : Grid) (r c : Nat) (hr : r < g.length)
    (hc : c < (g.getD r []).length) : (0 : Nat) ∈ (setCell g r c 0).flatten := by
  induction g generalizing r with
  | nil => simp at hr
  | cons row rest ih =>
    cases r with
    | zero =>
      have hc' : c < row.length := by simpa using hc
      have hmem : (0 : Nat) ∈ row.set c 0 := by
        have hlen : c < (row.set c 0).length := by simpa using hc'
        have h0 : (row.set c 0)[c] = 0 := List.getElem_set_self hlen
        have hm := List.getElem_mem hlen
        rwa [h0] at hm
      exact List.mem_flatten.mpr ⟨row.set c 0, by simp [setCell], hmem⟩
    | succ r' =>
      have hr' : r' < rest.length := by simpa using hr
      have hc' : c < (rest.getD r' []).length := by simpa using hc
      have hmem := ih r' hr' hc'
      simp only [setCell, List.flatten_cons, List.mem_append]
      exact Or.inr hmem

lemma isTerminal_eq_true_iff (b : Board) :
    isTerminal b = true ↔
      ((∀ x ∈ b.grid.flatten, x ≠ 0) ∧
        ∀ d ∈ ["up", "down", "left", "right"], resolvedGrid d b.grid = b.grid) := by
  unfold isTerminal
  by_cases hz : b.grid.flatten.any (· = 0)
  · simp only [if_pos hz, Bool.false_eq_true, false_iff]
    intro h
    rcases List.any_eq_true.mp hz with ⟨x, hx, hx0⟩
    exact h.1 x hx (by simpa using hx0)
  · simp only [if_neg hz]
    have hnz : ∀ x ∈ b.grid.flatten, x ≠ 0 := by
      intro x hx h0
      exact hz (List.any_eq_true.mpr ⟨x, hx, by simp [h0]⟩)
    constructor
    · intro h
      refine ⟨hnz, ?_⟩
      intro d hd
      by_contra hne
      have hv : d = "up" ∨ d = "down" ∨ d = "left" ∨ d = "right" := by
        simpa using hd
      have hmv : (b.move d).2 = true := (move_snd_true_iff b d).mpr ⟨hv, hne⟩
      have hall : (["up", "down", "left", "right"].any fun d => (b.move d).2) = false := by
        simpa using h
      have htrue : (["up", "down", "left", "right"].any fun d => (b.move d).2) = true :=
        List.any_eq_true.mpr ⟨d, hd, hmv⟩
      rw [hall] at htrue
      exact absurd htrue (by simp)
    · intro h
      simp only [Bool.not_eq_true']
      rw [List.any_eq_false]
      intro d hd
      rw [move_unchanged b d (h.2 d hd)]
      simp

/-- The 4×4 strict checkerboard grid of two alternating values. -/
def checkerGrid (a b : Nat) : Grid :=
  [[a, b, a, b], [b, a, b, a], [a, b, a, b], [b, a, b, a]]

/-- A board carrying just a grid (the other fields are irrelevant to the
terminal test). -/
def mkBoardG (g : Grid) : Board :=
  { grid := g, score := 0, high_tile := 0, game_over := false, won := false, highscore := 0 }

lemma combine_line_alt (x y : Nat) (hx : x ≠ 0) (hy : y ≠ 0) (hxy : x ≠ y) :
    combine_line [x, y, x, y] = ([x, y, x, y], 0) := by
  rw [combine_line_eq]
  have hfil : [x, y, x, y].filter (· ≠ 0) = [x, y, x, y] := by
    simp [hx, hy]
  rw [hfil, mergeScan_eq_skip _ _ _ hxy, mergeScan_eq_skip _ _ _ (Ne.symm hxy),
    mergeScan_eq_skip _ _ _ hxy]
  simp [mergeScan]

lemma transposeSq_checker (a b : Nat) :
    transposeSq (checkerGrid a b) = checkerGrid a b := rfl

lemma resolvedGrid_right (g : Grid) :
    resolvedGrid "right" g = g.map (fun row => (combine_line row.reverse).1.reverse) := by
  unfold resolvedGrid resolvedRows processLine
  simp

lemma resolvedGrid_up (g : Grid) :
    resolvedGrid "up" g =
      transposeSq ((transposeSq g).map (fun row => (combine_line row).1)) := by
  unfold resolvedGrid resolvedRows processLine
  simp [Function.comp_def]

lemma resolvedGrid_down (g : Grid) :
    resolvedGrid "down" g =
      transposeSq ((transposeSq g).map (fun row => (combine_line row.reverse).1.reverse)) := by
  unfold resolvedGrid resolvedRows processLine
  simp [Function.comp_def]

lemma map_combine_checker (a b : Nat) (h1 : combine_line [a, b, a, b] = ([a, b, a, b], 0))
    (h2 : combine_line [b, a, b, a] = ([b, a, b, a], 0)) :
    (checkerGrid a b).map (fun row => (combine_line row).1) = checkerGrid a b := by
  simp [checkerGrid, h1, h2]

lemma map_combine_rev_checker (a b : Nat)
    (h1 : combine_line [a, b, a, b] = ([a, b, a, b], 0))
    (h2 : combine_line [b, a, b, a] = ([b, a, b, a], 0)) :
    (checkerGrid a b).map (fun row => (combine_line row.reverse).1.reverse) =
      checkerGrid a b := by
  simp [checkerGrid, h1, h2]

lemma checker_resolved (a b : Nat) (ha : a ≠ 0) (hb : b ≠ 0) (hab : a ≠ b) :
    ∀ d ∈ ["up", "down", "left", "right"],
      resolvedGrid d (checkerGrid a b) = checkerGrid a b := by
  have h1 := combine_line_alt a b ha hb hab
  have h2 := combine_line_alt b a hb ha (Ne.symm hab)
  intro d hd
  rcases (by simpa using hd : d = "up" ∨ d = "down" ∨ d = "left" ∨ d = "right") with
    rfl | rfl | rfl | rfl
  · rw [resolvedGrid_up, transposeSq_checker, map_combine_checker a b h1 h2,
      transposeSq_checker]
  · rw [resolvedGrid_down, transposeSq_checker, map_combine_rev_checker a b h1 h2,
      transposeSq_checker]
  · rw [resolvedGrid_left, map_combine_checker a b h1 h2]
  · rw [resolvedGrid_right, map_combine_rev_checker a b h1 h2]

lemma checker_row_length (a b r : Nat) (hr : r < 4) :
    ((checkerGrid a b).getD r []).length = 4 := by
  interval_cases r <;> simp [checkerGrid]

/-- C1: `combine_line` performs the one-pass compress-and-merge: the three
specified input/output pairs hold, and in general the scan that merges a
pair skips past the freshly formed tile, so a tile just formed by a merge
is never merged again in the same pass. -/
theorem combine_line_one_pass :
    combine_line [2, 2, 0, 0] = ([4, 0, 0, 0], 4) ∧
    combine_line [2, 2, 4, 4] = ([4, 8, 0, 0], 12) ∧
    combine_line [2, 2, 2, 0] = ([4, 2, 0, 0], 4) ∧
    ∀ (a : Nat) (rest : List Nat),
      mergeScan (a :: a :: rest) =
        (a * 2 :: (mergeScan rest).1, (mergeScan rest).2 + a * 2) := by
  refine ⟨by decide, by decide, by decide, ?_⟩
  intro a rest
  simp [mergeScan]

/-- C2: `Board.move` returns false and leaves the whole state unchanged
both on an invalid direction and when the resolved grid equals the pre-move
grid; conversely it only reports success when the grid actually changed. -/
theorem move_rejects_invalid_and_unchanged (b : Board) (d : String) :
    (¬(d = "up" ∨ d = "down" ∨ d = "left" ∨ d = "right") → b.move d = (b, false)) ∧
    (resolvedGrid d b.grid = b.grid → b.move d = (b, false)) ∧
    ((b.move d).2 = true → (b.move d).1.grid ≠ b.grid) := by
  refine ⟨?_, ?_, ?_⟩
  · intro h
    simp [Board.move, h]
  · intro h
    by_cases hv : d = "up" ∨ d = "down" ∨ d = "left" ∨ d = "right"
    · simp [Board.move, hv, h]
    · simp [Board.move, hv]
  · intro h
    by_cases hv : d = "up" ∨ d = "down" ∨ d = "left" ∨ d = "right"
    · by_cases hc : resolvedGrid d b.grid = b.grid
      · simp [Board.move, hv, hc] at h
      · simp [Board.move, hv, hc]
    · simp [Board.move, hv] at h

/-- Witness for C2: a concrete invalid direction and a concrete
already-resolved grid are both rejected without mutation. -/
theorem move_rejects_invalid_and_unchanged_witness :
    sampleBoard.move "diagonal" = (sampleBoard, false) ∧
    sampleBoard.move "left" = (sampleBoard, false) :=
  ⟨(move_rejects_invalid_and_unchanged sampleBoard "diagonal").1 (by decide),
   (move_rejects_invalid_and_unchanged sampleBoard "left").2.1 (by decide)⟩

/-- C4: the terminal test is true iff the grid is full and no direction
changes it; a strict two-value checkerboard is terminal, and clearing any
single cell of it makes the test false again. -/
theorem terminal_iff_full_and_stuck :
    (∀ b : Board,
      isTerminal b = true ↔
        ((∀ x ∈ b.grid.flatten, x ≠ 0) ∧
          ∀ d ∈ ["up", "down", "left", "right"], resolvedGrid d b.grid = b.grid)) ∧
    (∀ a b : Nat, a ≠ 0 → b ≠ 0 → a ≠ b →
      isTerminal (mkBoardG (checkerGrid a b)) = true) ∧
    (∀ a b r c : Nat, r < 4 → c < 4 →
      isTerminal (mkBoardG (setCell (checkerGrid a b) r c 0)) = false) := by
  refine ⟨isTerminal_eq_true_iff, ?_, ?_⟩
  · intro a b ha hb hab
    rw [isTerminal_eq_true_iff]
    constructor
    · intro x hx
      have hx' : x = a ∨ x = b := by
        simp only [checkerGrid, mkBoardG] at hx
        simp at hx
        tauto
      rcases hx' with rfl | rfl
      · exact ha
      · exact hb
    · exact checker_resolved a b ha hb hab
  · intro a b r c hr hc
    have hzero : (0 : Nat) ∈ (setCell (checkerGrid a b) r c 0).flatten := by
      apply setCell_zero_mem
      · simpa [checkerGrid] using hr
      · rw [checker_row_length a b r hr]
        exact hc
    unfold isTerminal
    rw [if_pos]
    exact List.any_eq_true.mpr ⟨0, by simpa [mkBoardG] using hzero, by simp⟩

/-- Witness for C4: the 2/4 checkerboard is terminal, and clearing its cell
(1,2) is not. -/
theorem terminal_iff_full_and_stuck_witness :
    isTerminal (mkBoardG (checkerGrid 2 4)) = true ∧
    isTerminal (mkBoardG (setCell (checkerGrid 2 4) 1 2 0)) = false :=
  ⟨terminal_iff_full_and_stuck.2.1 2 4 (by decide) (by decide) (by decide),
   terminal_iff_full_and_stuck.2.2 2 4 1 2 (by decide) (by decide)⟩

/-- A board whose left move merges the trailing 2,2 pair and thereby
creates a fresh adjacent equal pair 4,4. -/
def staircaseBoard : Board :=
  { grid := [[4, 2, 2, 0], [0, 0, 0, 0], [0, 0, 0, 0], [0, 0, 0, 0]]
    score := 0
    high_tile := 4
    game_over := false
    won := false
    highscore := 0 }

/-- Counterexample to C5 as stated: both the first and the second left move
on `staircaseBoard` succeed ([4,2,2,0] → [4,4,0,0] → [8,0,0,0]), so
`move('left')` twice in a row does not always return false the second
time. -/
theorem second_left_move_counterexample :
    (staircaseBoard.move "left").2 = true ∧
    (((staircaseBoard.move "left").1).move "left").2 = true := by decide

/-- C5 amended: after a successful left move the second left move returns
false provided no row of the intermediate grid contains an adjacent equal
pair of nonzero tiles; without that proviso the second move can succeed,
as the counterexample shows. -/
theorem second_left_move_false_of_no_new_pairs (b : Board)
    (h1 : (b.move "left").2 = true)
    (h2 : ∀ row ∈ ((b.move "left").1).grid,
      List.Chain' (fun x y => x = y → x = 0) row) :
    (((b.move "left").1).move "left").2 = false := by
  have hv : ("left" : String) = "up" ∨ ("left" : String) = "down" ∨
      ("left" : String) = "left" ∨ ("left" : String) = "right" := by simp
  have hc : ¬resolvedGrid "left" b.grid = b.grid :=
    ((move_snd_true_iff b "left").mp h1).2
  have hgrid : ((b.move "left").1).grid = b.grid.map (fun row => (combine_line row).1) := by
    rw [move_changed b "left" hv hc]
    exact resolvedGrid_left b.grid
  have hfix : resolvedGrid "left" ((b.move "left").1).grid = ((b.move "left").1).grid := by
    rw [resolvedGrid_left]
    nth_rewrite 2 [show ((b.move "left").1).grid =
      ((b.move "left").1).grid.map id from (List.map_id _).symm]
    apply List.map_congr_left
    intro r hr
    rcases List.mem_map.mp (by rw [← hgrid]; exact hr :
      r ∈ b.grid.map (fun row => (combine_line row).1)) with ⟨row, _, rfl⟩
    have := combine_line_idem row (h2 _ hr)
    rw [this]
    rfl
  rw [move_unchanged _ _ hfix]

/-- A board whose single left move compacts without creating a new pair. -/
def shiftBoard : Board :=
  { grid := [[0, 2, 4, 0], [0, 0, 0, 0], [0, 0, 0, 0], [0, 0, 0, 0]]
    score := 0
    high_tile := 4
    game_over := false
    won := false
    highscore := 0 }

/-- Witness for the amended C5 at a concrete board. -/
theorem second_left_move_false_witness :
    (((shiftBoard.move "left").1).move "left").2 = false := by
  apply second_left_move_false_of_no_new_pairs shiftBoard (by decide)
  intro row hr
  rw [show ((shiftBoard.move "left").1).grid =
    [[2, 4, 0, 0], [0, 0, 0, 0], [0, 0, 0, 0], [0, 0, 0, 0]] from by decide] at hr
  simp only [List.mem_cons, List.not_mem_nil, or_false] at hr
  rcases hr with rfl | rfl | rfl | rfl <;> simp [List.chain'_cons]

/-- C8: moving a board with top row [1024,1024,0,0] (and no tile above
1024) to the left succeeds, sets the high tile to 2048 and turns `won` on;
once `won` is true no later move clears it, and a move can only turn `won`
on when the new grid reaches 2048. -/
theorem move_left_reaches_2048 :
    (∀ (b : Board) (r1 r2 r3 : List Nat),
      b.grid = [[1024, 1024, 0, 0], r1, r2, r3] →
      b.won = false →
      (∀ x ∈ b.grid.flatten, x ≤ 1024) →
      (b.move "left").2 = true ∧
      ((b.move "left").1).high_tile = 2048 ∧
      ((b.move "left").1).won = true) ∧
    (∀ (b : Board) (d : String), b.won = true → ((b.move d).1).won = true) ∧
    (∀ (b : Board) (d : String), ((b.move d).1).won = true →
      b.won = true ∨ 2048 ≤ gridMax (((b.move d).1).grid)) := by
  refine ⟨?_, ?_, ?_⟩
  · intro b r1 r2 r3 hg hw hbound
    have hv : ("left" : String) = "up" ∨ ("left" : String) = "down" ∨
        ("left" : String) = "left" ∨ ("left" : String) = "right" := by simp
    have hhead : (combine_line [1024, 1024, 0, 0]).1 = [2048, 0, 0, 0] := by decide
    have hres : resolvedGrid "left" b.grid =
        [2048, 0, 0, 0] :: [r1, r2, r3].map (fun row => (combine_line row).1) := by
      rw [hg, resolvedGrid_left, List.map_cons, hhead]
    have hne : ¬resolvedGrid "left" b.grid = b.grid := by
      intro h
      rw [hres, hg] at h
      have := (List.cons.injEq _ _ _ _).mp h
      exact absurd this.1 (by decide)
    have hmove := move_changed b "left" hv hne
    have hmax : gridMax (resolvedGrid "left" b.grid) = 2048 := by
      apply Nat.le_antisymm
      · apply foldr_max_le
        intro x hx
        rcases resolvedGrid_mem "left" b.grid x hx with rfl | hmem | ⟨y, hy, rfl⟩
        · omega
        · exact le_trans (hbound x hmem) (by omega)
        · have := hbound y hy
          omega
      · apply le_foldr_max
        rw [hres]
        simp
    refine ⟨by rw [hmove], ?_, ?_⟩
    · rw [hmove]
      exact hmax
    · rw [hmove]
      simp [hmax, hw]
  · intro b d hwon
    by_cases hv : d = "up" ∨ d = "down" ∨ d = "left" ∨ d = "right"
    · by_cases hc : resolvedGrid d b.grid = b.grid
      · rw [move_unchanged b d hc]
        exact hwon
      · rw [move_changed b d hv hc]
        simp [hwon]
    · rw [move_invalid b d hv]
      exact hwon
  · intro b d hwon
    by_cases hv : d = "up" ∨ d = "down" ∨ d = "left" ∨ d = "right"
    · by_cases hc : resolvedGrid d b.grid = b.grid
      · rw [move_unchanged b d hc] at hwon ⊢
        exact Or.inl hwon
      · rw [move_changed b d hv hc] at hwon ⊢
        simp only at hwon ⊢
        by_cases hcond : 2048 ≤ gridMax (resolvedGrid d b.grid) ∧ b.won = false
        · exact Or.inr hcond.1
        · rw [if_neg hcond] at hwon
          exact Or.inl hwon
    · rw [move_invalid b d hv] at hwon ⊢
      exact Or.inl hwon

/-- A board one left move away from 2048. -/
def almostWonBoard : Board :=
  { grid := [[1024, 1024, 0, 0], [0, 0, 0, 0], [0, 0, 0, 0], [0, 0, 0, 0]]
    score := 0
    high_tile := 1024
    game_over := false
    won := false
    highscore := 0 }

/-- Witness for C8 at a concrete board. -/
theorem move_left_reaches_2048_witness :
    (almostWonBoard.move "left").2 = true ∧
    ((almostWonBoard.move "left").1).high_tile = 2048 ∧
    ((almostWonBoard.move "left").1).won = true :=
  move_left_reaches_2048.1 almostWonBoard [0, 0, 0, 0] [0, 0, 0, 0] [0, 0, 0, 0]
    (by decide) (by decide) (by decide)

/-- C10: `combine_line` conserves the total tile mass of its line, and
consequently `Board.move` preserves the sum of all grid values (the grid is
rectangular, as every numpy grid is). -/
theorem move_preserves_total_sum :
    (∀ line, (combine_line line).1.sum = line.sum) ∧
    ∀ (b : Board) (d : String), (∀ row ∈ b.grid, row.length = b.grid.length) →
      (((b.move d).1).grid).flatten.sum = b.grid.flatten.sum := by
  refine ⟨combine_line_sum, ?_⟩
  intro b d hwf
  by_cases hv : d = "up" ∨ d = "down" ∨ d = "left" ∨ d = "right"
  · by_cases hc : resolvedGrid d b.grid = b.grid
    · rw [move_unchanged b d hc]
    · rw [move_changed b d hv hc]
      exact resolvedGrid_flatten_sum d b.grid hwf
  · rw [move_invalid b d hv]

/-- Witness for C10 at a concrete board whose left move merges a pair. -/
theorem move_preserves_total_sum_witness :
    (((staircaseBoard.move "left").1).grid).flatten.sum =
      staircaseBoard.grid.flatten.sum :=
  move_preserves_total_sum.2 staircaseBoard "left" (by decide)

/-- `AISpawner.__init__` (`ai/spawner.py`): the difficulty string is
lower-cased; a (pre-lowering) difficulty of `hard` forces search depth 3,
otherwise the given depth is kept. -/
structure AISpawner where
  difficulty : String
  search_depth : Nat
deriving DecidableEq

/-- Python's `str.lower()`, written as a structural map over the characters. -/
def strLower (s : String) : String := String.mk (s.data.map Char.toLower)

/-- Constructor logic of `AISpawner`. -/
def mkAISpawner (difficulty : String) (search_depth : Nat) : AISpawner :=
  { difficulty := strLower difficulty
    search_depth := if difficulty = "hard" then 3 else search_depth }

/-- Single-cell write used by spawning (`board._grid[row, col] = value`). -/
def placeTile (b : Board) (r c v : Nat) : Board :=
  { b with grid := setCell b.grid r c v }

/-- Adjacent pairs of a line. -/
def adjPairs (l : List Nat) : List (Nat × Nat) := l.zip l.tail

/-- `_monotonicity`'s four totals: the row pass accumulates, over adjacent
row pairs, the drop into `totals[0]` and the rise into `totals[1]`; the
column pass does the same over the transposed rows. -/
def monoRowTotals (g : Grid) : Nat × Nat :=
  ((g.map (fun row => ((adjPairs row).map
      (fun p => if p.2 < p.1 then p.1 - p.2 else 0)).sum)).sum,
   (g.map (fun row => ((adjPairs row).map
      (fun p => if p.2 < p.1 then 0 else p.2 - p.1)).sum)).sum)

/-- `AISpawner._monotonicity`. -/
def monotonicity (g : Grid) : Nat :=
  max (monoRowTotals g).1 (monoRowTotals g).2 +
    max (monoRowTotals (transposeSq g)).1 (monoRowTotals (transposeSq g)).2

/-- One line's smoothness contribution over the reals
(`np.log2` differences of adjacent nonzero tiles). -/
noncomputable def rowSmoothR (l : List Nat) : ℝ :=
  ((adjPairs l).map (fun p =>
    if p.1 ≠ 0 ∧ p.2 ≠ 0 then |Real.logb 2 p.1 - Real.logb 2 p.2| else 0)).sum

/-- `AISpawner._smoothness`: right-neighbour pairs are the rows' adjacent
pairs, below-neighbour pairs are the transposed rows' adjacent pairs. -/
noncomputable def smoothnessR (g : Grid) : ℝ :=
  -((g.map rowSmoothR).sum + ((transposeSq g).map rowSmoothR).sum)

/-- Fuel-driven base-2 logarithm, definitionally reducible (unlike
`Nat.log2`, which is defined by well-founded recursion); `natLog2_eq`
identifies the two. -/
def log2Aux : Nat → Nat → Nat
  | 0, _ => 0
  | fuel + 1, n => if 2 ≤ n then log2Aux fuel (n / 2) + 1 else 0

/-- `⌊log₂ n⌋` as a reducible function. -/
def natLog2 (n : Nat) : Nat := log2Aux n n

/-- Integer companion of `rowSmoothR`, exact on power-of-two tiles (the
absolute difference is taken with `Int.natAbs`, which the kernel can
evaluate). -/
def rowSmoothZ (l : List Nat) : Int :=
  ((adjPairs l).map (fun p =>
    if p.1 ≠ 0 ∧ p.2 ≠ 0 then
      (((natLog2 p.1 : Int) - (natLog2 p.2 : Int)).natAbs : Int)
    else 0)).sum

/-- Integer companion of `smoothnessR`. -/
def smoothnessZ (g : Grid) : Int :=
  -((g.map rowSmoothZ).sum + ((transposeSq g).map rowSmoothZ).sum)

/-- The four corner values `grid[0,0], grid[0,-1], grid[-1,0], grid[-1,-1]`. -/
def corners (g : Grid) : List Nat :=
  [entry g 0 0,
   entry g 0 ((g.getD 0 []).length - 1),
   entry g (g.length - 1) 0,
   entry g (g.length - 1) ((g.getD (g.length - 1) []).length - 1)]

/-- `AISpawner._max_tile_corner_bonus`. -/
def maxTileCornerBonus (g : Grid) : Nat :=
  if (corners g).contains (gridMax g) then 1 else 0

/-- Row-major positions of tiles ≥ 64 (`np.argwhere(grid >= 64)`). -/
def bigPositions (g : Grid) : List (Nat × Nat) :=
  ((List.range g.length).map (fun i =>
    (List.range (g.getD i []).length).filterMap (fun j =>
      if 64 ≤ (g.getD i []).getD j 0 then some (i, j) else none))).flatten

/-- The coordinate values `np.std` averages over: the flattened position
array. -/
def flatCoords (ps : List (Nat × Nat)) : List Nat :=
  (ps.map (fun p => [p.1, p.2])).flatten

/-- Population variance of a list of naturals (the square of `np.std`). -/
def popVar (l : List Nat) : ℚ :=
  if l.length = 0 then 0
  else ((l.map (fun x => (x : ℚ) ^ 2)).sum / l.length) -
    ((l.map (fun x => (x : ℚ))).sum / l.length) ^ 2

/-- The `np.std(positions)` spread penalty term: 0 unless at least two
tiles reach 64. -/
noncomputable def spreadR (g : Grid) : ℝ :=
  if 1 < (bigPositions g).length then
    Real.sqrt ((popVar (flatCoords (bigPositions g)) : ℝ))
  else 0

/-- `AISpawner._is_organized`: a line with at most one nonzero value, or in
which at least 70% of the consecutive nonzero differences are strictly
increasing or strictly decreasing.  The float threshold `0.7 * total`
compares exactly like the integer inequality `7 * total ≤ 10 * count`. -/
def is_organized (l : List Nat) : Bool :=
  let nz := l.filter (· ≠ 0)
  if nz.length ≤ 1 then true
  else
    let diffs := (nz.zip nz.tail).map (fun p => (p.2 : Int) - (p.1 : Int))
    let incCount := (diffs.filter (fun d => 0 < d)).length
    let decCount := (diffs.filter (fun d => d < 0)).length
    decide (7 * diffs.length ≤ 10 * incCount) ||
      decide (7 * diffs.length ≤ 10 * decCount)

/-- Number of organized rows plus organized columns. -/
def organizedCount (g : Grid) : Nat :=
  (g.filter is_organized).length + ((transposeSq g).filter is_organized).length

/-- `AISpawner._evaluate_board`, with Python floats as exact reals. -/
noncomputable def evaluateR (b : Board) : ℝ :=
  (b.score : ℝ) * 2 + (emptyCount b.grid : ℝ) * 500 +
    (monotonicity b.grid : ℝ) * 100 + smoothnessR b.grid * 30 +
    (maxTileCornerBonus b.grid : ℝ) * 1000 +
    (if (corners b.grid).contains (gridMax b.grid) then 0 else -2000) -
    spreadR b.grid * 50 + (organizedCount b.grid : ℝ) * 200

/-- Computable companion of `evaluateR`: exact whenever all tiles are
powers of two and fewer than two tiles reach 64 (then the spread term is
zero and every `log2` is integral), in which case the evaluator value is an
integer. -/
def evaluateZ (b : Board) : Int :=
  (b.score : Int) * 2 + (emptyCount b.grid : Int) * 500 +
    (monotonicity b.grid : Int) * 100 + smoothnessZ b.grid * 30 +
    (maxTileCornerBonus b.grid : Int) * 1000 +
    (if (corners b.grid).contains (gridMax b.grid) then 0 else -2000) +
    (organizedCount b.grid : Int) * 200

/-- `AISpawner._expectimax` over the reals.  `sampler` stands for the
`np.random.choice` subsampling of chance-node cells (only consulted when
more than 6 cells are empty); the division always uses the capped cell
count, exactly as the source does. -/
noncomputable def expectimaxR (sampler : List (Nat × Nat) → List (Nat × Nat)) :
    Nat → Board → Bool → ℝ
  | 0, b, _ => evaluateR b
  | d + 1, b, is_player =>
    if isTerminal b then evaluateR b
    else if is_player then
      let vals := ["up", "down", "left", "right"].filterMap (fun dir =>
        let m := b.move dir
        if m.2 then some (expectimaxR sampler d m.1 false) else none)
      match vals with
      | [] => evaluateR b
      | v :: vs => vs.foldl max v
    else
      let cells := emptyCells b.grid
      if cells = [] then evaluateR b
      else
        let sampled := if 6 < cells.length then sampler cells else cells
        let num : Nat := if 6 < cells.length then 6 else cells.length
        ((sampled.map (fun rc =>
          (9 : ℝ) / 10 * expectimaxR sampler d (placeTile b rc.1 rc.2 2) true +
          (1 : ℝ) / 10 * expectimaxR sampler d (placeTile b rc.1 rc.2 4) true)).sum) / num

/-- Unnormalised fractions (numerator, positive denominator): exact
rational arithmetic that the kernel can evaluate (`ℚ` itself normalises
through `Nat.gcd`, which does not reduce definitionally). -/
abbrev Frac := Int × Nat

/-- Real value of a fraction. -/
noncomputable def interpF (a : Frac) : ℝ := (a.1 : ℝ) / (a.2 : ℝ)

/-- `0.9 * a + 0.1 * b` on fractions. -/
def fracWeighted (a b : Frac) : Frac :=
  (9 * a.1 * (b.2 : Int) + b.1 * (a.2 : Int), 10 * (a.2 * b.2))

/-- Addition on fractions. -/
def fracAdd (a b : Frac) : Frac :=
  (a.1 * (b.2 : Int) + b.1 * (a.2 : Int), a.2 * b.2)

/-- Maximum on fractions (denominators positive). -/
def fracMax (a b : Frac) : Frac :=
  if a.1 * (b.2 : Int) < b.1 * (a.2 : Int) then b else a

/-- Division of a fraction by a positive natural. -/
def fracDivNat (a : Frac) (n : Nat) : Frac := (a.1, a.2 * n)

/-- Computable companion of `expectimaxR`, over `Frac`. -/
def expectimaxF (sampler : List (Nat × Nat) → List (Nat × Nat)) :
    Nat → Board → Bool → Frac
  | 0, b, _ => ((evaluateZ b : Int), 1)
  | d + 1, b, is_player =>
    if isTerminal b then ((evaluateZ b : Int), 1)
    else if is_player then
      let vals := ["up", "down", "left", "right"].filterMap (fun dir =>
        let m := b.move dir
        if m.2 then some (expectimaxF sampler d m.1 false) else none)
      match vals with
      | [] => ((evaluateZ b : Int), 1)
      | v :: vs => vs.foldl fracMax v
    else
      let cells := emptyCells b.grid
      if cells = [] then ((evaluateZ b : Int), 1)
      else
        let sampled := if 6 < cells.length then sampler cells else cells
        let num : Nat := if 6 < cells.length then 6 else cells.length
        fracDivNat ((sampled.map (fun rc =>
          fracWeighted (expectimaxF sampler d (placeTile b rc.1 rc.2 2) true)
            (expectimaxF sampler d (placeTile b rc.1 rc.2 4) true))).foldr fracAdd (0, 1))
          num

/-- `AISpawner._evaluate_spawn`: place the value on a copy, then search. -/
noncomputable def evaluate_spawn (sampler : List (Nat × Nat) → List (Nat × Nat))
    (sp : AISpawner) (b : Board) (r c v : Nat) : ℝ :=
  expectimaxR sampler sp.search_depth (placeTile b r c v) true

/-- Candidate score of an empty cell: `0.9*evaluate(cell,2) +
0.1*evaluate(cell,4)`. -/
noncomputable def candScoreR (sampler : List (Nat × Nat) → List (Nat × Nat))
    (sp : AISpawner) (b : Board) (rc : Nat × Nat) : ℝ :=
  (9 : ℝ) / 10 * evaluate_spawn sampler sp b rc.1 rc.2 2 +
    (1 : ℝ) / 10 * evaluate_spawn sampler sp b rc.1 rc.2 4

/-- Computable companion of `candScoreR`. -/
def candScoreF (sampler : List (Nat × Nat) → List (Nat × Nat))
    (sp : AISpawner) (b : Board) (rc : Nat × Nat) : Frac :=
  fracWeighted (expectimaxF sampler sp.search_depth (placeTile b rc.1 rc.2 2) true)
    (expectimaxF sampler sp.search_depth (placeTile b rc.1 rc.2 4) true)

/-- Stable insertion of one element into an (ascending, by key) list: it
goes in front of the first element of key ≥ its own. -/
def insSorted {α K : Type} [LinearOrder K] (key : α → K) (x : α) : List α → List α
  | [] => [x]
  | y :: ys => if key x ≤ key y then x :: y :: ys else y :: insSorted key x ys

/-- `list.sort(key=...)` — Python's sort is stable, and every stable
ascending sort produces the same list, so a stable insertion sort is an
exact model of it. -/
def stableSort {α K : Type} [LinearOrder K] (key : α → K) : List α → List α
  | [] => []
  | x :: xs => insSorted key x (stableSort key xs)

/-- `AISpawner.spawn_tile`.  The random draws are explicit arguments:
`val` is the `np.random.choice([2,4], p=[0.9,0.1])` outcome and `idx` the
`np.random.randint` index used on medium difficulty (`_spawn_random`). -/
noncomputable def spawn_tile (sampler : List (Nat × Nat) → List (Nat × Nat))
    (sp : AISpawner) (b : Board) (val idx : Nat) : Board × Bool :=
  if sp.difficulty = "medium" then
    let cells := emptyCells b.grid
    if cells = [] then (b, false)
    else
      let rc := cells.getD idx (0, 0)
      (placeTile b rc.1 rc.2 val, true)
  else
    let cells := emptyCells b.grid
    if cells = [] then (b, false)
    else
      let scores := cells.map (fun rc => (candScoreR sampler sp b rc, rc))
      let sorted := stableSort (fun s => s.1) scores
      let best := if sp.difficulty = "easy" then sorted.getLastD (0, (0, 0))
                  else sorted.headD (0, (0, 0))
      (placeTile b best.2.1 best.2.2 val, true)

/-- `Board.__init__` (`game/board.py`): the fields are zero-initialised,
then the high score is read from `./game/highscore.txt` with a bare
`open(...)` — no `try`/`except` and no existence check.  The file-system
interaction is made explicit, as an `Option String` argument holding the
file's contents: `none` when the file does not exist, in which case
`open` raises `FileNotFoundError` and construction fails (`none` result);
`some s` otherwise.  `if highscore:` keeps the high score at zero on an
empty string; a nonempty string is parsed by `int(highscore)`, modelled
by `String.toInt?`, whose failure (`ValueError`) also aborts
construction.  Spawning of the two initial tiles is orthogonal to the
store and is modelled with `spawn_initial=False`. -/
def boardInit (size : Nat) (store : Option String) : Option Board :=
  let base : Board :=
    { grid := List.replicate size (List.replicate size 0)
      score := 0
      high_tile := 0
      game_over := false
      won := false
      highscore := 0 }
  match store with
  | none => none
  | some s =>
    if s = "" then some base
    else
      match s.toInt? with
      | some n => some { base with highscore := n }
      | none => none

section SortLemmas

variable {α K : Type} [LinearOrder K] (key : α → K)

lemma getLast?_mem_self (l : List α) (x : α) (h : l.getLast? = some x) : x ∈ l := by
  induction l with
  | nil => simp at h
  | cons a t ih =>
    cases t with
    | nil =>
      simp at h
      simp [h]
    | cons b t' =>
      rw [List.getLast?_cons_cons] at h
      exact List.mem_cons_of_mem a (ih h)

lemma insSorted_ne_nil (x : α) (l : List α) : insSorted key x l ≠ [] := by
  cases l with
  | nil => simp [insSorted]
  | cons y ys =>
    unfold insSorted
    split <;> simp

lemma mem_insSorted (x y : α) (l : List α) :
    y ∈ insSorted key x l ↔ y = x ∨ y ∈ l := by
  induction l with
  | nil => simp [insSorted]
  | cons z zs ih =>
    unfold insSorted
    split
    · simp [List.mem_cons]
    · simp only [List.mem_cons, ih]
      tauto

lemma mem_stableSort (y : α) (l : List α) : y ∈ stableSort key l ↔ y ∈ l := by
  induction l with
  | nil => simp [stableSort]
  | cons x xs ih => simp [stableSort, mem_insSorted, ih]

lemma insSorted_sorted (x : α) (l : List α)
    (h : List.Sorted (fun a b => key a ≤ key b) l) :
    List.Sorted (fun a b => key a ≤ key b) (insSorted key x l) := by
  induction l with
  | nil => simp [insSorted]
  | cons y ys ih =>
    rcases List.sorted_cons.mp h with ⟨hy, hys⟩
    unfold insSorted
    split
    · rename_i hxy
      apply List.sorted_cons.mpr
      refine ⟨?_, h⟩
      intro z hz
      rcases List.mem_cons.mp hz with rfl | hz'
      · exact hxy
      · exact le_trans hxy (hy z hz')
    · rename_i hxy
      apply List.sorted_cons.mpr
      refine ⟨?_, ih hys⟩
      intro z hz
      rcases (mem_insSorted key x z ys).mp hz with rfl | hz'
      · exact le_of_lt (lt_of_not_le hxy)
      · exact hy z hz'

lemma stableSort_sorted (l : List α) :
    List.Sorted (fun a b => key a ≤ key b) (stableSort key l) := by
  induction l with
  | nil => simp [stableSort]
  | cons x xs ih => exact insSorted_sorted key x _ ih

lemma sorted_cons_getLast?_ge (y : α) (ys : List α) (m : α)
    (hs : List.Sorted (fun a b => key a ≤ key b) (y :: ys))
    (hm : (y :: ys).getLast? = some m) : key y ≤ key m := by
  rcases List.mem_cons.mp (getLast?_mem_self _ _ hm) with rfl | h
  · exact le_refl _
  · exact (List.sorted_cons.mp hs).1 m h

lemma getLast?_insSorted (x : α) (l : List α)
    (hs : List.Sorted (fun a b => key a ≤ key b) l) :
    (insSorted key x l).getLast? =
      some (match l.getLast? with
            | none => x
            | some m => if key m < key x then x else m) := by
  induction l with
  | nil => simp [insSorted]
  | cons y ys ih =>
    unfold insSorted
    split
    · rename_i hxy
      obtain ⟨m, hm⟩ : ∃ m, (y :: ys).getLast? = some m := by
        have := List.getLast?_isSome.mpr (List.cons_ne_nil y ys)
        exact Option.isSome_iff_exists.mp this
      rw [List.getLast?_cons_cons, hm]
      have hle : key x ≤ key m :=
        le_trans hxy (sorted_cons_getLast?_ge key y ys m hs hm)
      simp [not_lt.mpr hle]
    · rename_i hxy
      cases ys with
      | nil =>
        simp [insSorted, lt_of_not_le hxy]
      | cons w ws =>
        have hys : List.Sorted (fun a b => key a ≤ key b) (w :: ws) :=
          (List.sorted_cons.mp hs).2
        have ih' := ih hys
        obtain ⟨z, zs, hz⟩ : ∃ z zs, insSorted key x (w :: ws) = z :: zs := by
          cases hfoo : insSorted key x (w :: ws) with
          | nil => exact absurd hfoo (insSorted_ne_nil key x _)
          | cons z zs => exact ⟨z, zs, rfl⟩
        rw [hz, List.getLast?_cons_cons, ← hz, ih', List.getLast?_cons_cons]

lemma head?_insSorted (x : α) (l : List α) :
    (insSorted key x l).head? =
      some (match l.head? with
            | none => x
            | some y => if key x ≤ key y then x else y) := by
  cases l with
  | nil => simp [insSorted]
  | cons y ys =>
    unfold insSorted
    split
    · rename_i hxy
      simp [hxy]
    · rename_i hxy
      simp [hxy]

end SortLemmas

/-- The latest element of `a :: l` (in list order) attaining the maximal
key: the tail's champion survives ties against the earlier head. -/
def lastMaxBy {α K : Type} [LinearOrder K] (key : α → K) : α → List α → α
  | a, [] => a
  | a, x :: xs => if key (lastMaxBy key x xs) < key a then a else lastMaxBy key x xs

/-- The earliest element of `a :: l` attaining the minimal key: the head
survives ties against the tail's champion. -/
def firstMinBy {α K : Type} [LinearOrder K] (key : α → K) : α → List α → α
  | a, [] => a
  | a, x :: xs => if key (firstMinBy key x xs) < key a then firstMinBy key x xs else a

section SelectLemmas

variable {α K : Type} [LinearOrder K] (key : α → K)

lemma stableSort_getLast? (x : α) (xs : List α) :
    (stableSort key (x :: xs)).getLast? = some (lastMaxBy key x xs) := by
  induction xs generalizing x with
  | nil => simp [stableSort, insSorted, lastMaxBy]
  | cons y ys ih =>
    rw [show stableSort key (x :: y :: ys) = insSorted key x (stableSort key (y :: ys))
      from rfl]
    rw [getLast?_insSorted key x _ (stableSort_sorted key (y :: ys)), ih y]
    simp [lastMaxBy]

lemma stableSort_head? (x : α) (xs : List α) :
    (stableSort key (x :: xs)).head? = some (firstMinBy key x xs) := by
  induction xs generalizing x with
  | nil => simp [stableSort, insSorted, firstMinBy]
  | cons y ys ih =>
    rw [show stableSort key (x :: y :: ys) = insSorted key x (stableSort key (y :: ys))
      from rfl]
    rw [head?_insSorted key x _, ih y]
    simp only [firstMinBy]
    by_cases hlt : key (firstMinBy key y ys) < key x
    · rw [if_pos hlt, if_neg (not_le.mpr hlt)]
    · rw [if_neg hlt, if_pos (not_lt.mp hlt)]

lemma lastMaxBy_mem (a : α) (l : List α) : lastMaxBy key a l ∈ a :: l := by
  induction l generalizing a with
  | nil => simp [lastMaxBy]
  | cons x xs ih =>
    unfold lastMaxBy
    split
    · simp
    · rcases List.mem_cons.mp (ih x) with h | h
      · simp [h]
      · simp [List.mem_cons_of_mem, h]

lemma firstMinBy_mem (a : α) (l : List α) : firstMinBy key a l ∈ a :: l := by
  induction l generalizing a with
  | nil => simp [firstMinBy]
  | cons x xs ih =>
    unfold firstMinBy
    split
    · rcases List.mem_cons.mp (ih x) with h | h
      · simp [h]
      · simp [List.mem_cons_of_mem, h]
    · simp

lemma lastMaxBy_spec (a : α) (l : List α) :
    ∃ (i : Nat) (hi : i < (a :: l).length),
      (a :: l).get ⟨i, hi⟩ = lastMaxBy key a l ∧
      (∀ y ∈ a :: l, key y ≤ key (lastMaxBy key a l)) ∧
      ∀ (j : Nat) (hj : j < (a :: l).length), i < j →
        key ((a :: l).get ⟨j, hj⟩) < key (lastMaxBy key a l) := by
  induction l generalizing a with
  | nil =>
    refine ⟨0, by simp, rfl, ?_, ?_⟩
    · intro y hy
      rcases List.mem_cons.mp hy with rfl | hy'
      · exact le_refl _
      · simp at hy'
    · intro j hj hij
      simp at hj
      omega
  | cons x xs ih =>
    obtain ⟨i, hi, hget, hbound, hstrict⟩ := ih x
    by_cases hlt : key (lastMaxBy key x xs) < key a
    · refine ⟨0, by simp, ?_, ?_, ?_⟩
      · simp [lastMaxBy, hlt]
      · intro y hy
        rw [show lastMaxBy key a (x :: xs) = a by simp [lastMaxBy, hlt]]
        rcases List.mem_cons.mp hy with rfl | hy'
        · exact le_refl _
        · exact le_trans (hbound y hy') (le_of_lt hlt)
      · intro j hj hij
        rw [show lastMaxBy key a (x :: xs) = a by simp [lastMaxBy, hlt]]
        cases j with
        | zero => omega
        | succ j' =>
          have hj' : j' < (x :: xs).length := by simpa using hj
          rw [List.get_cons_succ]
          exact lt_of_le_of_lt (hbound _ (List.get_mem _ _ _)) hlt
    · refine ⟨i + 1, by simpa using hi, ?_, ?_, ?_⟩
      · rw [show lastMaxBy key a (x :: xs) = lastMaxBy key x xs by
          simp [lastMaxBy, hlt]]
        rw [List.get_cons_succ]
        exact hget
      · intro y hy
        rw [show lastMaxBy key a (x :: xs) = lastMaxBy key x xs by
          simp [lastMaxBy, hlt]]
        rcases List.mem_cons.mp hy with rfl | hy'
        · exact not_lt.mp hlt
        · exact hbound y hy'
      · intro j hj hij
        rw [show lastMaxBy key a (x :: xs) = lastMaxBy key x xs by
          simp [lastMaxBy, hlt]]
        cases j with
        | zero => omega
        | succ j' =>
          have hj' : j' < (x :: xs).length := by simpa using hj
          rw [List.get_cons_succ]
          exact hstrict j' hj' (by omega)

lemma firstMinBy_spec (a : α) (l : List α) :
    ∃ (i : Nat) (hi : i < (a :: l).length),
      (a :: l).get ⟨i, hi⟩ = firstMinBy key a l ∧
      (∀ y ∈ a :: l, key (firstMinBy key a l) ≤ key y) ∧
      ∀ (j : Nat) (hj : j < (a :: l).length), j < i →
        key (firstMinBy key a l) < key ((a :: l).get ⟨j, hj⟩) := by
  induction l generalizing a with
  | nil =>
    refine ⟨0, by simp, rfl, ?_, ?_⟩
    · intro y hy
      rcases List.mem_cons.mp hy with rfl | hy'
      · exact le_refl _
      · simp at hy'
    · intro j hj hij
      omega
  | cons x xs ih =>
    obtain ⟨i, hi, hget, hbound, hstrict⟩ := ih x
    by_cases hlt : key (firstMinBy key x xs) < key a
    · refine ⟨i + 1, by simpa using hi, ?_, ?_, ?_⟩
      · rw [show firstMinBy key a (x :: xs) = firstMinBy key x xs by
          simp [firstMinBy, hlt]]
        rw [List.get_cons_succ]
        exact hget
      · intro y hy
        rw [show firstMinBy key a (x :: xs) = firstMinBy key x xs by
          simp [firstMinBy, hlt]]
        rcases List.mem_cons.mp hy with rfl | hy'
        · exact le_of_lt hlt
        · exact hbound y hy'
      · intro j hj hij
        rw [show firstMinBy key a (x :: xs) = firstMinBy key x xs by
          simp [firstMinBy, hlt]]
        cases j with
        | zero => exact hlt
        | succ j' =>
          have hj' : j' < (x :: xs).length := by simpa using hj
          rw [List.get_cons_succ]
          exact hstrict j' hj' (by omega)
    · refine ⟨0, by simp, ?_, ?_, ?_⟩
      · simp [firstMinBy, hlt]
      · intro y hy
        rw [show firstMinBy key a (x :: xs) = a by simp [firstMinBy, hlt]]
        rcases List.mem_cons.mp hy with rfl | hy'
        · exact le_refl _
        · exact le_trans (not_lt.mp hlt) (hbound y hy')
      · intro j hj hij
        omega

lemma insSorted_map {β : Type} (key' : β → K) (f : β → α)
    (hkey : ∀ b, key (f b) = key' b) (x : β) (l : List β) :
    insSorted key (f x) (l.map f) = (insSorted key' x l).map f := by
  induction l with
  | nil => simp [insSorted]
  | cons y ys ih =>
    simp only [List.map_cons]
    unfold insSorted
    rw [hkey x, hkey y]
    split
    · simp
    · simp [ih]

lemma stableSort_map {β : Type} (key' : β → K) (f : β → α)
    (hkey : ∀ b, key (f b) = key' b) (l : List β) :
    stableSort key (l.map f) = (stableSort key' l).map f := by
  induction l with
  | nil => simp [stableSort]
  | cons x xs ih =>
    simp only [List.map_cons]
    unfold stableSort
    rw [ih, insSorted_map key key' f hkey]

end SelectLemmas

lemma mem_emptyCells (g : Grid) (rc : Nat × Nat) :
    rc ∈ emptyCells g ↔
      rc.1 < g.length ∧ rc.2 < (g.getD rc.1 []).length ∧ entry g rc.1 rc.2 = 0 := by
  obtain ⟨i, j⟩ := rc
  unfold emptyCells entry
  constructor
  · intro h
    rcases List.mem_flatten.mp h with ⟨block, hblock, hmem⟩
    rcases List.mem_map.mp hblock with ⟨i', hi', rfl⟩
    rcases List.mem_filterMap.mp hmem with ⟨j', hj', hval⟩
    by_cases hz : (g.getD i' []).getD j' 1 = 0
    · rw [if_pos hz] at hval
      have hij : i' = i ∧ j' = j := by simpa using hval
      obtain ⟨rfl, rfl⟩ := hij
      have hjlen := List.mem_range.mp hj'
      refine ⟨List.mem_range.mp hi', hjlen, ?_⟩
      rw [List.getD_eq_getElem _ 1 hjlen] at hz
      rw [List.getD_eq_getElem _ 0 hjlen]
      exact hz
    · rw [if_neg hz] at hval
      cases hval
  · rintro ⟨hi, hj, hz⟩
    apply List.mem_flatten.mpr
    refine ⟨_, List.mem_map_of_mem _ (List.mem_range.mpr hi), ?_⟩
    apply List.mem_filterMap.mpr
    refine ⟨j, List.mem_range.mpr hj, ?_⟩
    rw [if_pos]
    rw [List.getD_eq_getElem _ 1 hj]
    rw [List.getD_eq_getElem _ 0 hj] at hz
    exact hz

lemma setCell_out (g : Grid) (r c v : Nat) (hr : g.length ≤ r) :
    setCell g r c v = g := by
  induction g generalizing r with
  | nil => cases r <;> rfl
  | cons row rest ih =>
    cases r with
    | zero => simp at hr
    | succ r' =>
      have : rest.length ≤ r' := by simpa using hr
      simp [setCell, ih r' this]

lemma getD_setCell_row_self (g : Grid) (r c v : Nat) (hr : r < g.length) :
    (setCell g r c v).getD r [] = (g.getD r []).set c v := by
  induction g generalizing r with
  | nil => simp at hr
  | cons row rest ih =>
    cases r with
    | zero => simp [setCell]
    | succ r' =>
      have hr' : r' < rest.length := by simpa using hr
      simp only [setCell, List.getD_cons_succ]
      exact ih r' hr'

lemma getD_setCell_row_ne (g : Grid) (r c v r' : Nat) (h : r' ≠ r) :
    (setCell g r c v).getD r' [] = g.getD r' [] := by
  induction g generalizing r r' with
  | nil => cases r <;> rfl
  | cons row rest ih =>
    cases r with
    | zero =>
      cases r' with
      | zero => exact absurd rfl h
      | succ r'' => simp [setCell]
    | succ rp =>
      cases r' with
      | zero => simp [setCell]
      | succ r'' =>
        simp only [setCell, List.getD_cons_succ]
        exact ih rp r'' (by omega)

lemma getD_set_self (l : List Nat) (n v : Nat) (h : n < l.length) :
    (l.set n v).getD n 0 = v := by
  rw [List.getD_eq_getElem _ _ (by simpa using h)]
  exact List.getElem_set_self _

lemma getD_set_ne (l : List Nat) (n m v : Nat) (h : m ≠ n) :
    (l.set n v).getD m 0 = l.getD m 0 := by
  induction l generalizing n m with
  | nil => simp
  | cons a t ih =>
    cases n with
    | zero =>
      cases m with
      | zero => exact absurd rfl h
      | succ m' => simp [List.set]
    | succ n' =>
      cases m with
      | zero => simp [List.set]
      | succ m' =>
        simp only [List.set, List.getD_cons_succ]
        exact ih n' m' (by omega)

lemma entry_setCell_self (g : Grid) (r c v : Nat) (hr : r < g.length)
    (hc : c < (g.getD r []).length) : entry (setCell g r c v) r c = v := by
  unfold entry
  rw [getD_setCell_row_self g r c v hr, getD_set_self _ _ _ hc]

lemma entry_setCell_ne (g : Grid) (r c v r' c' : Nat)
    (h : ¬(r' = r ∧ c' = c)) : entry (setCell g r c v) r' c' = entry g r' c' := by
  unfold entry
  by_cases hrr : r' = r
  · subst hrr
    have hcc : c' ≠ c := fun hc => h ⟨rfl, hc⟩
    by_cases hr : r' < g.length
    · rw [getD_setCell_row_self g r' c v hr, getD_set_ne _ _ _ _ hcc]
    · rw [setCell_out g r' c v (by omega)]
  · rw [getD_setCell_row_ne g r c v r' hrr]

lemma countNonzero_cons (row : List Nat) (rest : Grid) :
    countNonzero (row :: rest) = (row.filter (· ≠ 0)).length + countNonzero rest := by
  simp [countNonzero, List.flatten_cons, List.filter_append]

lemma filter_length_set (row : List Nat) (c v : Nat) (hc : c < row.length)
    (hz : row.getD c 0 = 0) (hv : v ≠ 0) :
    ((row.set c v).filter (· ≠ 0)).length = (row.filter (· ≠ 0)).length + 1 := by
  induction row generalizing c with
  | nil => simp at hc
  | cons a t ih =>
    cases c with
    | zero =>
      have ha : a = 0 := by simpa using hz
      subst ha
      simp [List.set, List.filter_cons, hv]
    | succ c' =>
      have hc' : c' < t.length := by simpa using hc
      have hz' : t.getD c' 0 = 0 := by simpa using hz
      by_cases ha : a = 0
      · simp only [List.set, List.filter_cons, ha]
        simpa using ih c' hc' hz'
      · simp only [List.set, List.filter_cons]
        have hdec : (decide (a ≠ 0)) = true := by simpa using ha
        simp only [hdec, if_true, List.length_cons]
        rw [ih c' hc' hz']

lemma countNonzero_setCell (g : Grid) (r c v : Nat) (hr : r < g.length)
    (hc : c < (g.getD r []).length) (hz : entry g r c = 0) (hv : v ≠ 0) :
    countNonzero (setCell g r c v) = countNonzero g + 1 := by
  induction g generalizing r with
  | nil => simp at hr
  | cons row rest ih =>
    cases r with
    | zero =>
      simp only [List.getD_cons_zero] at hc
      have hz0 : row.getD c 0 = 0 := by simpa [entry] using hz
      rw [show setCell (row :: rest) 0 c v = row.set c v :: rest from rfl]
      rw [countNonzero_cons, countNonzero_cons, filter_length_set row c v hc hz0 hv]
      omega
    | succ r' =>
      have hr' : r' < rest.length := by simpa using hr
      have hc' : c < (rest.getD r' []).length := by simpa using hc
      have hz' : entry rest r' c = 0 := by simpa [entry] using hz
      rw [show setCell (row :: rest) (r' + 1) c v = row :: setCell rest r' c v from rfl]
      rw [countNonzero_cons, countNonzero_cons, ih r' hr' hc' hz']
      omega

lemma getLastD_mem (l : List (ℝ × (Nat × Nat))) (d : ℝ × (Nat × Nat)) (h : l ≠ []) :
    l.getLastD d ∈ l := by
  rw [List.getLastD_eq_getLast?]
  obtain ⟨m, hm⟩ := Option.isSome_iff_exists.mp (List.getLast?_isSome.mpr h)
  rw [hm]
  exact getLast?_mem_self l m hm

lemma headD_mem (l : List (ℝ × (Nat × Nat))) (d : ℝ × (Nat × Nat)) (h : l ≠ []) :
    l.headD d ∈ l := by
  cases l with
  | nil => exact absurd rfl h
  | cons x xs => simp

lemma spawn_tile_chosen_cell (sampler : List (Nat × Nat) → List (Nat × Nat))
    (sp : AISpawner) (b : Board) (val idx : Nat)
    (hidx : sp.difficulty = "medium" → idx < (emptyCells b.grid).length)
    (hne : emptyCells b.grid ≠ []) :
    ∃ rc ∈ emptyCells b.grid,
      spawn_tile sampler sp b val idx = (placeTile b rc.1 rc.2 val, true) := by
  unfold spawn_tile
  by_cases hmed : sp.difficulty = "medium"
  · rw [if_pos hmed, if_neg hne]
    refine ⟨(emptyCells b.grid).getD idx (0, 0), ?_, rfl⟩
    have hlt := hidx hmed
    rw [List.getD_eq_getElem _ _ hlt]
    exact List.getElem_mem hlt
  · rw [if_neg hmed, if_neg hne]
    set key : (Nat × Nat) → ℝ := candScoreR sampler sp b with hkey
    set f : (Nat × Nat) → ℝ × (Nat × Nat) := fun rc => (key rc, rc) with hf
    have hsort : stableSort (fun s : ℝ × (Nat × Nat) => s.1)
        ((emptyCells b.grid).map f) =
        (stableSort key (emptyCells b.grid)).map f :=
      stableSort_map _ key f (fun rc => rfl) _
    have hsne : (stableSort key (emptyCells b.grid)).map f ≠ [] := by
      intro hnil
      have := (List.map_eq_nil_iff).mp hnil
      rcases hc : emptyCells b.grid with _ | ⟨c0, rest⟩
      · exact hne hc
      · rw [hc] at this
        have h2 := stableSort_getLast? key c0 rest
        rw [this] at h2
        simp at h2
    by_cases heasy : sp.difficulty = "easy"
    · have hmem := getLastD_mem _ (0, (0, 0)) hsne
      rcases List.mem_map.mp hmem with ⟨rc, hrc, hfr⟩
      refine ⟨rc, (mem_stableSort key rc _).mp hrc, ?_⟩
      simp only [heasy, if_true, hsort]
      rw [← hfr]
    · have hmem := headD_mem _ (0, (0, 0)) hsne
      rcases List.mem_map.mp hmem with ⟨rc, hrc, hfr⟩
      refine ⟨rc, (mem_stableSort key rc _).mp hrc, ?_⟩
      simp only [heasy, if_false, hsort]
      rw [← hfr]

lemma spawn_tile_empty (sampler : List (Nat × Nat) → List (Nat × Nat))
    (sp : AISpawner) (b : Board) (val idx : Nat)
    (hempty : emptyCells b.grid = []) :
    spawn_tile sampler sp b val idx = (b, false) := by
  unfold spawn_tile
  by_cases hmed : sp.difficulty = "medium"
  · rw [if_pos hmed, if_pos hempty]
  · rw [if_neg hmed, if_pos hempty]

/-- C3: `spawn_tile` returns false exactly on a board without empty cells
(and then changes nothing); otherwise it returns true after writing the
drawn value (2 or 4) into one previously empty in-range cell, leaving
every other cell unchanged, so the nonzero-cell count grows by one. -/
theorem spawn_tile_contract (sampler : List (Nat × Nat) → List (Nat × Nat))
    (sp : AISpawner) (b : Board) (val idx : Nat)
    (hval : val = 2 ∨ val = 4)
    (hidx : sp.difficulty = "medium" → idx < (emptyCells b.grid).length) :
    ((spawn_tile sampler sp b val idx).2 = false ↔ emptyCells b.grid = []) ∧
    ((spawn_tile sampler sp b val idx).2 = false →
      (spawn_tile sampler sp b val idx).1 = b) ∧
    ((spawn_tile sampler sp b val idx).2 = true →
      ∃ rc ∈ emptyCells b.grid,
        (spawn_tile sampler sp b val idx).1 = placeTile b rc.1 rc.2 val ∧
        entry b.grid rc.1 rc.2 = 0 ∧
        entry ((spawn_tile sampler sp b val idx).1).grid rc.1 rc.2 = val ∧
        (∀ r' c', ¬(r' = rc.1 ∧ c' = rc.2) →
          entry ((spawn_tile sampler sp b val idx).1).grid r' c' = entry b.grid r' c') ∧
        countNonzero ((spawn_tile sampler sp b val idx).1).grid =
          countNonzero b.grid + 1) := by
  have hvne : val ≠ 0 := by rcases hval with rfl | rfl <;> omega
  by_cases hempty : emptyCells b.grid = []
  · rw [spawn_tile_empty sampler sp b val idx hempty]
    refine ⟨by simp [hempty], fun _ => rfl, ?_⟩
    intro h
    simp at h
  · obtain ⟨rc, hrc, heq⟩ := spawn_tile_chosen_cell sampler sp b val idx hidx hempty
    obtain ⟨hr, hc, hz⟩ := (mem_emptyCells b.grid rc).mp hrc
    rw [heq]
    refine ⟨by simp [hempty], by simp, ?_⟩
    intro _
    refine ⟨rc, hrc, rfl, hz, ?_, ?_, ?_⟩
    · exact entry_setCell_self b.grid rc.1 rc.2 val hr hc
    · intro r' c' hne'
      exact entry_setCell_ne b.grid rc.1 rc.2 val r' c' hne'
    · exact countNonzero_setCell b.grid rc.1 rc.2 val hr hc hz hvne

/-- Witness for C3: a medium spawn on the sample board commits 2 at the
first empty cell, raising the nonzero count from 2 to 3. -/
theorem spawn_tile_contract_witness :
    ((spawn_tile (fun l => l) (mkAISpawner "medium" 2) sampleBoard 2 0).2 = false ↔
      emptyCells sampleBoard.grid = []) ∧
    ((spawn_tile (fun l => l) (mkAISpawner "medium" 2) sampleBoard 2 0).2 = false →
      (spawn_tile (fun l => l) (mkAISpawner "medium" 2) sampleBoard 2 0).1 = sampleBoard) ∧
    ((spawn_tile (fun l => l) (mkAISpawner "medium" 2) sampleBoard 2 0).2 = true →
      ∃ rc ∈ emptyCells sampleBoard.grid,
        (spawn_tile (fun l => l) (mkAISpawner "medium" 2) sampleBoard 2 0).1 =
          placeTile sampleBoard rc.1 rc.2 2 ∧
        entry sampleBoard.grid rc.1 rc.2 = 0 ∧
        entry ((spawn_tile (fun l => l) (mkAISpawner "medium" 2) sampleBoard 2 0).1).grid
          rc.1 rc.2 = 2 ∧
        (∀ r' c', ¬(r' = rc.1 ∧ c' = rc.2) →
          entry ((spawn_tile (fun l => l) (mkAISpawner "medium" 2) sampleBoard 2 0).1).grid
            r' c' = entry sampleBoard.grid r' c') ∧
        countNonzero ((spawn_tile (fun l => l) (mkAISpawner "medium" 2) sampleBoard 2 0).1).grid =
          countNonzero sampleBoard.grid + 1) :=
  spawn_tile_contract (fun l => l) (mkAISpawner "medium" 2) sampleBoard 2 0
    (Or.inl rfl) (fun _ => by decide)

/-- Counterexample to C7 as stated: when the high-score store is missing,
construction does not fall back to a zero high score — it fails (`open`
raises `FileNotFoundError`), contradicting "a missing store is also
treated as zero, and construction never fails when the stored value is
absent". -/
theorem board_init_missing_store_counterexample : boardInit 4 none = none := rfl

/-- C7 amended: construction consumes the single store read; an empty
store is treated as a high score of zero and construction succeeds, but a
missing store makes construction fail. -/
theorem board_init_store_handling :
    (∀ size : Nat, ∃ b : Board, boardInit size (some "") = some b ∧ b.highscore = 0) ∧
    (∀ size : Nat, boardInit size none = none) := by
  constructor
  · intro size
    exact ⟨_, rfl, rfl⟩
  · intro size
    rfl

lemma log2Aux_eq (fuel : Nat) : ∀ n : Nat, n ≤ fuel → log2Aux fuel n = Nat.log2 n := by
  induction fuel with
  | zero =>
    intro n hn
    have hh : n = 0 := by omega
    subst hh
    simp [log2Aux, Nat.log2]
  | succ fuel ih =>
    intro n hn
    by_cases h2 : 2 ≤ n
    · have hdiv : n / 2 ≤ fuel := by
        have := Nat.div_lt_self (by omega : 0 < n) (by norm_num : 1 < 2)
        omega
      rw [show log2Aux (fuel + 1) n = log2Aux fuel (n / 2) + 1 from by simp [log2Aux, h2]]
      rw [ih _ hdiv]
      conv_rhs => rw [Nat.log2]
      simp [h2]
    · rw [show log2Aux (fuel + 1) n = 0 from by simp [log2Aux, h2]]
      rw [Nat.log2]
      simp [h2]

lemma natLog2_eq (n : Nat) : natLog2 n = Nat.log2 n :=
  log2Aux_eq n n le_rfl

lemma natLog2_two_pow (k : Nat) : natLog2 (2 ^ k) = k := by
  rw [natLog2_eq, Nat.log2_two_pow]

lemma cast_int_list_sum (l : List Int) : ((l.sum : Int) : ℝ) = (l.map (fun z : Int => (z : ℝ))).sum := by
  induction l with
  | nil => simp
  | cons a t ih =>
    simp only [List.sum_cons, List.map_cons]
    push_cast
    rfl

lemma logb_natLog2 (x : Nat) (hp : x = 2 ^ natLog2 x) :
    Real.logb 2 (x : ℝ) = (natLog2 x : ℝ) := by
  conv_lhs => rw [hp]
  push_cast
  rw [Real.logb_pow, Real.logb_self_eq_one (by norm_num)]
  ring

lemma rowSmoothR_eq (l : List Nat) (hp : ∀ x ∈ l, x = 0 ∨ x = 2 ^ natLog2 x) :
    rowSmoothR l = ((rowSmoothZ l : Int) : ℝ) := by
  unfold rowSmoothR rowSmoothZ
  rw [cast_int_list_sum, List.map_map]
  apply congrArg List.sum
  apply List.map_congr_left
  intro p hp'
  obtain ⟨h1, h2t⟩ := List.of_mem_zip hp'
  have h2 := List.mem_of_mem_tail h2t
  by_cases hnz : p.1 ≠ 0 ∧ p.2 ≠ 0
  · simp only [if_pos hnz, Function.comp_apply]
    rcases hp p.1 h1 with h | hpow1
    · exact absurd h hnz.1
    rcases hp p.2 h2 with h | hpow2
    · exact absurd h hnz.2
    rw [logb_natLog2 p.1 hpow1, logb_natLog2 p.2 hpow2]
    rw [Int.cast_natAbs]
    push_cast
    ring_nf
  · simp only [if_neg hnz, Function.comp_apply]
    simp

lemma smoothnessR_eq (g : Grid) (hp : ∀ x ∈ g.flatten, x = 0 ∨ x = 2 ^ natLog2 x) :
    smoothnessR g = ((smoothnessZ g : Int) : ℝ) := by
  have hrow : ∀ row ∈ g, rowSmoothR row = ((rowSmoothZ row : Int) : ℝ) := by
    intro row hr
    exact rowSmoothR_eq row (fun x hx => hp x (List.mem_flatten.mpr ⟨row, hr, hx⟩))
  have hrowT : ∀ row ∈ transposeSq g, rowSmoothR row = ((rowSmoothZ row : Int) : ℝ) := by
    intro row hr
    apply rowSmoothR_eq row
    intro x hx
    rcases transposeSq_mem g x (List.mem_flatten.mpr ⟨row, hr, hx⟩) with h | h
    · exact Or.inl h
    · exact hp x h
  unfold smoothnessR smoothnessZ
  rw [show g.map rowSmoothR = (g.map rowSmoothZ).map (fun z : Int => (z : ℝ)) from by
    rw [List.map_map]; exact List.map_congr_left hrow]
  rw [show (transposeSq g).map rowSmoothR =
      ((transposeSq g).map rowSmoothZ).map (fun z : Int => (z : ℝ)) from by
    rw [List.map_map]; exact List.map_congr_left hrowT]
  rw [← cast_int_list_sum, ← cast_int_list_sum]
  push_cast
  ring

lemma getD_getD_mem_flatten (g : Grid) (i j : Nat) (hi : i < g.length)
    (hj : j < (g.getD i []).length) : (g.getD i []).getD j 0 ∈ g.flatten := by
  apply List.mem_flatten.mpr
  refine ⟨g.getD i [], ?_, ?_⟩
  · rw [List.getD_eq_getElem _ _ hi]
    exact List.getElem_mem hi
  · rw [List.getD_eq_getElem _ _ hj]
    exact List.getElem_mem hj

lemma bigPositions_nil (g : Grid) (h : ∀ x ∈ g.flatten, x < 64) :
    bigPositions g = [] := by
  unfold bigPositions
  rw [List.flatten_eq_nil_iff]
  intro block hblock
  rcases List.mem_map.mp hblock with ⟨i, hi, rfl⟩
  rw [List.filterMap_eq_nil_iff]
  intro j hj
  rw [if_neg]
  intro hge
  have hmem := getD_getD_mem_flatten g i j (List.mem_range.mp hi) (List.mem_range.mp hj)
  have := h _ hmem
  omega

lemma spreadR_zero (g : Grid) (h : ∀ x ∈ g.flatten, x < 64) : spreadR g = 0 := by
  unfold spreadR
  rw [bigPositions_nil g h]
  simp

lemma evaluateR_eq_evaluateZ (b : Board)
    (hp : ∀ x ∈ b.grid.flatten, x = 0 ∨ x = 2 ^ natLog2 x)
    (hb : ∀ x ∈ b.grid.flatten, x < 64) :
    evaluateR b = ((evaluateZ b : Int) : ℝ) := by
  unfold evaluateR evaluateZ
  rw [smoothnessR_eq b.grid hp, spreadR_zero b.grid hb]
  push_cast
  ring

/-- C9: with every other evaluator term unchanged, one extra empty cell
raises the evaluator's output by exactly the empty-cell weight 500. -/
theorem evaluator_empty_cell_weight (b1 b2 : Board)
    (hs : b2.score = b1.score)
    (hp1 : ∀ x ∈ b1.grid.flatten, x = 0 ∨ x = 2 ^ natLog2 x)
    (hp2 : ∀ x ∈ b2.grid.flatten, x = 0 ∨ x = 2 ^ natLog2 x)
    (he : emptyCount b2.grid = emptyCount b1.grid + 1)
    (hm : monotonicity b2.grid = monotonicity b1.grid)
    (hsm : smoothnessZ b2.grid = smoothnessZ b1.grid)
    (hcb : maxTileCornerBonus b2.grid = maxTileCornerBonus b1.grid)
    (hcc : (corners b2.grid).contains (gridMax b2.grid) =
      (corners b1.grid).contains (gridMax b1.grid))
    (hbp : bigPositions b2.grid = bigPositions b1.grid)
    (ho : organizedCount b2.grid = organizedCount b1.grid) :
    evaluateR b2 = evaluateR b1 + 500 := by
  unfold evaluateR
  rw [smoothnessR_eq b2.grid hp2, smoothnessR_eq b1.grid hp1]
  have hspread : spreadR b2.grid = spreadR b1.grid := by
    unfold spreadR
    rw [hbp]
  rw [hs, he, hm, hsm, hcb, hcc, hspread, ho]
  push_cast
  ring

/-- A board identical to `sparseEvalBoard` except for an extra isolated 2
at the bottom-right corner, leaving every other evaluator term equal. -/
def denseEvalBoard : Board :=
  { grid := [[32, 16, 8, 4], [16, 0, 0, 0], [8, 0, 0, 0], [4, 0, 0, 2]]
    score := 0
    high_tile := 32
    game_over := false
    won := false
    highscore := 0 }

/-- `denseEvalBoard` with the bottom-right 2 removed. -/
def sparseEvalBoard : Board :=
  { grid := [[32, 16, 8, 4], [16, 0, 0, 0], [8, 0, 0, 0], [4, 0, 0, 0]]
    score := 0
    high_tile := 32
    game_over := false
    won := false
    highscore := 0 }

/-- Witness for C9 on a concrete pair of grids. -/
theorem evaluator_empty_cell_weight_witness :
    evaluateR sparseEvalBoard = evaluateR denseEvalBoard + 500 :=
  evaluator_empty_cell_weight denseEvalBoard sparseEvalBoard rfl
    (by decide) (by decide) (by decide) (by decide) (by decide) (by decide)
    (by decide) (by decide) (by decide)

lemma fracMax_den_pos (a b : Frac) (ha : 0 < a.2) (hb : 0 < b.2) :
    0 < (fracMax a b).2 := by
  unfold fracMax
  split
  · exact hb
  · exact ha

lemma foldl_fracMax_den_pos (v : Frac) (vs : List Frac) (hv : 0 < v.2)
    (hvs : ∀ w ∈ vs, 0 < w.2) : 0 < (vs.foldl fracMax v).2 := by
  induction vs generalizing v with
  | nil => exact hv
  | cons w ws ih =>
    simp only [List.foldl_cons]
    exact ih (fracMax v w) (fracMax_den_pos v w hv (hvs w (by simp)))
      (fun w' hw' => hvs w' (List.mem_cons_of_mem _ hw'))

lemma foldr_fracAdd_den_pos (l : List Frac) (hl : ∀ w ∈ l, 0 < w.2) :
    0 < (l.foldr fracAdd (0, 1)).2 := by
  induction l with
  | nil => norm_num
  | cons w ws ih =>
    simp only [List.foldr_cons]
    unfold fracAdd
    have h1 := hl w (by simp)
    have h2 := ih (fun w' hw' => hl w' (List.mem_cons_of_mem _ hw'))
    simp only []
    positivity

lemma interpF_int (z : Int) : interpF ((z, 1) : Frac) = (z : ℝ) := by
  unfold interpF
  norm_num

lemma interpF_fracWeighted (a b : Frac) (ha : 0 < a.2) (hb : 0 < b.2) :
    interpF (fracWeighted a b) = 9 / 10 * interpF a + 1 / 10 * interpF b := by
  unfold interpF fracWeighted
  have ha' : ((a.2 : Nat) : ℝ) ≠ 0 := ne_of_gt (by exact_mod_cast ha)
  have hb' : ((b.2 : Nat) : ℝ) ≠ 0 := ne_of_gt (by exact_mod_cast hb)
  push_cast
  field_simp
  ring

lemma interpF_fracAdd (a b : Frac) (ha : 0 < a.2) (hb : 0 < b.2) :
    interpF (fracAdd a b) = interpF a + interpF b := by
  unfold interpF fracAdd
  have ha' : ((a.2 : Nat) : ℝ) ≠ 0 := ne_of_gt (by exact_mod_cast ha)
  have hb' : ((b.2 : Nat) : ℝ) ≠ 0 := ne_of_gt (by exact_mod_cast hb)
  push_cast
  field_simp

lemma interpF_fracDivNat (a : Frac) (n : Nat) (ha : 0 < a.2) (hn : 0 < n) :
    interpF (fracDivNat a n) = interpF a / n := by
  unfold interpF fracDivNat
  have ha' : ((a.2 : Nat) : ℝ) ≠ 0 := ne_of_gt (by exact_mod_cast ha)
  have hn' : ((n : Nat) : ℝ) ≠ 0 := ne_of_gt (by exact_mod_cast hn)
  push_cast
  field_simp

lemma interpF_fracMax (a b : Frac) (ha : 0 < a.2) (hb : 0 < b.2) :
    interpF (fracMax a b) = max (interpF a) (interpF b) := by
  unfold fracMax
  by_cases h : a.1 * (b.2 : Int) < b.1 * (a.2 : Int)
  · rw [if_pos h]
    have hlt : interpF a < interpF b := by
      unfold interpF
      rw [div_lt_div_iff₀ (by exact_mod_cast ha) (by exact_mod_cast hb)]
      exact_mod_cast h
    rw [max_eq_right (le_of_lt hlt)]
  · rw [if_neg h]
    have hle : interpF b ≤ interpF a := by
      unfold interpF
      rw [div_le_div_iff₀ (by exact_mod_cast hb) (by exact_mod_cast ha)]
      exact_mod_cast (not_lt.mp h)
    rw [max_eq_left hle]

lemma interpF_foldl_fracMax (v : Frac) (vs : List Frac) (hv : 0 < v.2)
    (hvs : ∀ w ∈ vs, 0 < w.2) :
    interpF (vs.foldl fracMax v) = (vs.map interpF).foldl max (interpF v) := by
  induction vs generalizing v with
  | nil => rfl
  | cons w ws ih =>
    simp only [List.foldl_cons, List.map_cons]
    rw [ih (fracMax v w) (fracMax_den_pos v w hv (hvs w (by simp)))
      (fun w' hw' => hvs w' (List.mem_cons_of_mem _ hw'))]
    rw [interpF_fracMax v w hv (hvs w (by simp))]

lemma interpF_foldr_fracAdd (l : List Frac) (hl : ∀ w ∈ l, 0 < w.2) :
    interpF (l.foldr fracAdd (0, 1)) = (l.map interpF).sum := by
  induction l with
  | nil =>
    unfold interpF
    simp
  | cons w ws ih =>
    simp only [List.foldr_cons, List.map_cons, List.sum_cons]
    rw [interpF_fracAdd w _ (hl w (by simp))
      (foldr_fracAdd_den_pos ws (fun w' hw' => hl w' (List.mem_cons_of_mem _ hw')))]
    rw [ih (fun w' hw' => hl w' (List.mem_cons_of_mem _ hw'))]

lemma mem_set_elim (l : List Nat) (n v x : Nat) (h : x ∈ l.set n v) :
    x ∈ l ∨ x = v := by
  induction l generalizing n with
  | nil => simp at h
  | cons a t ih =>
    cases n with
    | zero =>
      rcases List.mem_cons.mp h with rfl | h'
      · exact Or.inr rfl
      · exact Or.inl (List.mem_cons_of_mem _ h')
    | succ n' =>
      rcases List.mem_cons.mp h with rfl | h'
      · exact Or.inl (by simp)
      · rcases ih n' h' with h'' | h''
        · exact Or.inl (List.mem_cons_of_mem _ h'')
        · exact Or.inr h''

lemma setCell_flatten_mem (g : Grid) (r c v x : Nat)
    (h : x ∈ (setCell g r c v).flatten) : x ∈ g.flatten ∨ x = v := by
  induction g generalizing r with
  | nil => simp [setCell] at h
  | cons row rest ih =>
    cases r with
    | zero =>
      simp only [setCell, List.flatten_cons, List.mem_append] at h
      rcases h with h' | h'
      · rcases mem_set_elim row c v x h' with h'' | h''
        · exact Or.inl (by simp [List.flatten_cons, h''])
        · exact Or.inr h''
      · exact Or.inl (by simp [List.flatten_cons, h'])
    | succ r' =>
      simp only [setCell, List.flatten_cons, List.mem_append] at h
      rcases h with h' | h'
      · exact Or.inl (by simp [List.flatten_cons, h'])
      · rcases ih r' h' with h'' | h''
        · exact Or.inl (by simp [List.flatten_cons, h''])
        · exact Or.inr h''

lemma pow2_double (y : Nat) (hy : y = 2 ^ natLog2 y) : y * 2 = 2 ^ natLog2 (y * 2) := by
  have h1 : y * 2 = 2 ^ (natLog2 y + 1) := by
    rw [pow_succ, ← hy]
  rw [h1, natLog2_two_pow]

lemma resolved_pow2 (dir : String) (g : Grid)
    (hp : ∀ x ∈ g.flatten, x = 0 ∨ x = 2 ^ natLog2 x) :
    ∀ x ∈ (resolvedGrid dir g).flatten, x = 0 ∨ x = 2 ^ natLog2 x := by
  intro x hx
  rcases resolvedGrid_mem dir g x hx with rfl | h | ⟨y, hy, rfl⟩
  · exact Or.inl rfl
  · exact hp x h
  · rcases hp y hy with rfl | hpy
    · exact Or.inl (by norm_num)
    · exact Or.inr (pow2_double y hpy)

lemma resolved_bound (dir : String) (g : Grid) (m : Nat)
    (hb : ∀ x ∈ g.flatten, x * 2 ^ (m + 1) < 64) :
    ∀ x ∈ (resolvedGrid dir g).flatten, x * 2 ^ m < 64 := by
  intro x hx
  rcases resolvedGrid_mem dir g x hx with rfl | h | ⟨y, hy, rfl⟩
  · simp
  · have h1 := hb x h
    have h2 : x * 2 ^ m ≤ x * 2 ^ (m + 1) :=
      Nat.mul_le_mul_left x (Nat.pow_le_pow_right (by norm_num) (by omega))
    omega
  · have h1 := hb y hy
    have h2 : y * 2 * 2 ^ m = y * 2 ^ (m + 1) := by
      rw [pow_succ]
      ring
    omega

lemma setCell_pow2 (g : Grid) (r c v : Nat)
    (hp : ∀ x ∈ g.flatten, x = 0 ∨ x = 2 ^ natLog2 x)
    (hv : v = 0 ∨ v = 2 ^ natLog2 v) :
    ∀ x ∈ (setCell g r c v).flatten, x = 0 ∨ x = 2 ^ natLog2 x := by
  intro x hx
  rcases setCell_flatten_mem g r c v x hx with h | rfl
  · exact hp x h
  · exact hv

lemma setCell_bound (g : Grid) (r c v m : Nat)
    (hb : ∀ x ∈ g.flatten, x * 2 ^ m < 64) (hv : v * 2 ^ m < 64) :
    ∀ x ∈ (setCell g r c v).flatten, x * 2 ^ m < 64 := by
  intro x hx
  rcases setCell_flatten_mem g r c v x hx with h | rfl
  · exact hb x h
  · exact hv

/-- Moves still to come below a search node: the next player ply performs
one, chance plies only place a tile. -/
def movesLeft (d : Nat) (t : Bool) : Nat := if t then (d + 1) / 2 else d / 2

lemma movesLeft_player_succ (d : Nat) : movesLeft (d + 1) true = movesLeft d false + 1 := by
  unfold movesLeft
  simp
  omega

lemma movesLeft_chance_succ (d : Nat) : movesLeft (d + 1) false = movesLeft d true := by
  unfold movesLeft
  simp

lemma filterMap_congr_mem {α β : Type} (f g : α → Option β) (l : List α)
    (h : ∀ a ∈ l, f a = g a) : l.filterMap f = l.filterMap g := by
  induction l with
  | nil => rfl
  | cons a t ih =>
    rw [List.filterMap_cons, List.filterMap_cons, h a (by simp),
      ih (fun a' ha' => h a' (List.mem_cons_of_mem _ ha'))]

lemma expectimaxF_den_pos (sampler : List (Nat × Nat) → List (Nat × Nat)) :
    ∀ (d : Nat) (b : Board) (t : Bool), 0 < (expectimaxF sampler d b t).2 := by
  intro d
  induction d with
  | zero =>
    intro b t
    rw [show expectimaxF sampler 0 b t = (evaluateZ b, 1) from rfl]
    norm_num
  | succ d ih =>
    intro b t
    simp only [expectimaxF]
    by_cases hterm : isTerminal b
    · rw [if_pos hterm]
      norm_num
    · rw [if_neg hterm]
      by_cases ht : t = true
      · rw [if_pos ht]
        cases hv : ["up", "down", "left", "right"].filterMap (fun dir =>
            let m := b.move dir
            if m.2 then some (expectimaxF sampler d m.1 false) else none) with
        | nil => exact Nat.one_pos
        | cons v vs =>
          have hmem : ∀ w ∈ v :: vs, 0 < w.2 := by
            intro w hw
            rw [← hv] at hw
            rcases List.mem_filterMap.mp hw with ⟨dir, _, hdir⟩
            simp only at hdir
            by_cases hm : (b.move dir).2
            · rw [if_pos hm] at hdir
              obtain rfl : expectimaxF sampler d (b.move dir).1 false = w := by
                simpa using hdir
              exact ih _ _
            · rw [if_neg hm] at hdir
              cases hdir
          exact foldl_fracMax_den_pos v vs (hmem v (by simp))
            (fun w hw => hmem w (List.mem_cons_of_mem _ hw))
      · rw [if_neg ht]
        by_cases hcells : emptyCells b.grid = []
        · rw [if_pos hcells]
          norm_num
        · rw [if_neg hcells]
          have hnum : 0 < (if 6 < (emptyCells b.grid).length then 6
              else (emptyCells b.grid).length) := by
            split
            · norm_num
            · have hne : emptyCells b.grid ≠ [] := hcells
              cases hc : emptyCells b.grid with
              | nil => exact absurd hc hne
              | cons c cs => simp
          have hfoldr : 0 < (((if 6 < (emptyCells b.grid).length then sampler (emptyCells b.grid)
              else emptyCells b.grid).map (fun rc =>
                fracWeighted (expectimaxF sampler d (placeTile b rc.1 rc.2 2) true)
                  (expectimaxF sampler d (placeTile b rc.1 rc.2 4) true))).foldr
                fracAdd (0, 1)).2 := by
            apply foldr_fracAdd_den_pos
            intro w hw
            rcases List.mem_map.mp hw with ⟨rc, _, rfl⟩
            unfold fracWeighted
            have h1 := ih (placeTile b rc.1 rc.2 2) true
            have h2 := ih (placeTile b rc.1 rc.2 4) true
            positivity
          unfold fracDivNat
          exact Nat.mul_pos hfoldr hnum

lemma expectimax_bridge (sampler : List (Nat × Nat) → List (Nat × Nat)) :
    ∀ d : Nat, d ≤ 5 → ∀ (t : Bool) (b : Board),
      (∀ x ∈ b.grid.flatten, x = 0 ∨ x = 2 ^ natLog2 x) →
      (∀ x ∈ b.grid.flatten, x * 2 ^ movesLeft d t < 64) →
      expectimaxR sampler d b t = interpF (expectimaxF sampler d b t) := by
  intro d
  induction d with
  | zero =>
    intro _ t b hp hb
    rw [show expectimaxR sampler 0 b t = evaluateR b from rfl,
      show expectimaxF sampler 0 b t = (evaluateZ b, 1) from rfl, interpF_int]
    refine evaluateR_eq_evaluateZ b hp ?_
    intro x hx
    have h0 : movesLeft 0 t = 0 := by
      unfold movesLeft
      cases t <;> simp
    have := hb x hx
    rw [h0] at this
    simpa using this
  | succ d ih =>
    intro hd5 t b hp hb
    have hlt64 : ∀ x ∈ b.grid.flatten, x < 64 := by
      intro x hx
      have h1 := hb x hx
      have h2 : x ≤ x * 2 ^ movesLeft (d + 1) t :=
        Nat.le_mul_of_pos_right x (Nat.pos_pow_of_pos _ (by norm_num))
      omega
    simp only [expectimaxR, expectimaxF]
    by_cases hterm : isTerminal b
    · rw [if_pos hterm, if_pos hterm, interpF_int]
      exact evaluateR_eq_evaluateZ b hp hlt64
    · rw [if_neg hterm, if_neg hterm]
      by_cases ht : t = true
      · -- player ply
        rw [if_pos ht, if_pos ht]
        subst ht
        have hbound' : ∀ x ∈ b.grid.flatten, x * 2 ^ (movesLeft d false + 1) < 64 := by
          intro x hx
          rw [← movesLeft_player_succ]
          exact hb x hx
        have hpoint : ∀ dir ∈ ["up", "down", "left", "right"],
            (if (b.move dir).2 then some (expectimaxR sampler d (b.move dir).1 false)
              else none) =
            Option.map interpF
              (if (b.move dir).2 then some (expectimaxF sampler d (b.move dir).1 false)
                else none) := by
          intro dir _
          by_cases hm : (b.move dir).2
          · rw [if_pos hm, if_pos hm, Option.map_some']
            have hv := ((move_snd_true_iff b dir).mp hm).1
            have hc := ((move_snd_true_iff b dir).mp hm).2
            have hgrid : (b.move dir).1.grid = resolvedGrid dir b.grid := by
              rw [move_changed b dir hv hc]
            congr 1
            apply ih (by omega) false
            · rw [hgrid]
              exact resolved_pow2 dir b.grid hp
            · rw [hgrid]
              exact resolved_bound dir b.grid _ hbound'
          · rw [if_neg hm, if_neg hm]
            rfl
        have hfm : (["up", "down", "left", "right"].filterMap (fun dir =>
            let m := b.move dir
            if m.2 then some (expectimaxR sampler d m.1 false) else none)) =
            ((["up", "down", "left", "right"].filterMap (fun dir =>
              let m := b.move dir
              if m.2 then some (expectimaxF sampler d m.1 false) else none)).map interpF) := by
          rw [List.map_filterMap]
          exact filterMap_congr_mem _ _ _ hpoint
        rw [hfm]
        cases hv : ["up", "down", "left", "right"].filterMap (fun dir =>
            let m := b.move dir
            if m.2 then some (expectimaxF sampler d m.1 false) else none) with
        | nil =>
          simp only [List.map_nil]
          rw [interpF_int]
          exact evaluateR_eq_evaluateZ b hp hlt64
        | cons v vs =>
          simp only [List.map_cons]
          have hmem : ∀ w ∈ v :: vs, 0 < w.2 := by
            intro w hw
            rw [← hv] at hw
            rcases List.mem_filterMap.mp hw with ⟨dir, _, hdir⟩
            simp only at hdir
            by_cases hm : (b.move dir).2
            · rw [if_pos hm] at hdir
              obtain rfl : expectimaxF sampler d (b.move dir).1 false = w := by
                simpa using hdir
              exact expectimaxF_den_pos sampler d _ _
            · rw [if_neg hm] at hdir
              cases hdir
          rw [← interpF_foldl_fracMax v vs (hmem v (by simp))
            (fun w hw => hmem w (List.mem_cons_of_mem _ hw))]
      · -- chance ply
        rw [if_neg ht, if_neg ht]
        have ht' : t = false := by
          cases t
          · rfl
          · exact absurd rfl ht
        subst ht'
        by_cases hcells : emptyCells b.grid = []
        · rw [if_pos hcells, if_pos hcells, interpF_int]
          exact evaluateR_eq_evaluateZ b hp hlt64
        · rw [if_neg hcells, if_neg hcells]
          have hbound2 : ∀ x ∈ b.grid.flatten, x * 2 ^ movesLeft d true < 64 := by
            intro x hx
            rw [← movesLeft_chance_succ]
            exact hb x hx
          have hd4 : d ≤ 4 := by omega
          have hvb : ∀ v : Nat, v ≤ 4 → v * 2 ^ movesLeft d true < 64 := by
            intro v hv4
            have h3 : movesLeft d true ≤ 3 := by
              unfold movesLeft
              simp only [if_true]
              omega
            have hpow : 2 ^ movesLeft d true ≤ 2 ^ 3 :=
              Nat.pow_le_pow_right (by norm_num) h3
            have := Nat.mul_le_mul hv4 hpow
            omega
          have hplace : ∀ (rc : Nat × Nat) (v : Nat), v = 2 ∨ v = 4 →
              expectimaxR sampler d (placeTile b rc.1 rc.2 v) true =
                interpF (expectimaxF sampler d (placeTile b rc.1 rc.2 v) true) := by
            intro rc v hv24
            apply ih (by omega) true
            · apply setCell_pow2 _ _ _ _ hp
              rcases hv24 with rfl | rfl
              · exact Or.inr (by decide)
              · exact Or.inr (by decide)
            · apply setCell_bound _ _ _ _ _ hbound2
              apply hvb
              rcases hv24 with rfl | rfl <;> omega
          have hcellmap : ((if 6 < (emptyCells b.grid).length then sampler (emptyCells b.grid)
              else emptyCells b.grid).map (fun rc =>
                (9 : ℝ) / 10 * expectimaxR sampler d (placeTile b rc.1 rc.2 2) true +
                (1 : ℝ) / 10 * expectimaxR sampler d (placeTile b rc.1 rc.2 4) true)) =
              (((if 6 < (emptyCells b.grid).length then sampler (emptyCells b.grid)
              else emptyCells b.grid).map (fun rc =>
                fracWeighted (expectimaxF sampler d (placeTile b rc.1 rc.2 2) true)
                  (expectimaxF sampler d (placeTile b rc.1 rc.2 4) true))).map interpF) := by
            rw [List.map_map]
            apply List.map_congr_left
            intro rc _
            simp only [Function.comp_apply]
            rw [interpF_fracWeighted _ _ (expectimaxF_den_pos sampler d _ _)
              (expectimaxF_den_pos sampler d _ _)]
            rw [hplace rc 2 (Or.inl rfl), hplace rc 4 (Or.inr rfl)]
          rw [hcellmap]
          have hdens : ∀ w ∈ ((if 6 < (emptyCells b.grid).length then sampler (emptyCells b.grid)
              else emptyCells b.grid).map (fun rc =>
                fracWeighted (expectimaxF sampler d (placeTile b rc.1 rc.2 2) true)
                  (expectimaxF sampler d (placeTile b rc.1 rc.2 4) true))), 0 < w.2 := by
            intro w hw
            rcases List.mem_map.mp hw with ⟨rc, _, rfl⟩
            unfold fracWeighted
            have h1 := expectimaxF_den_pos sampler d (placeTile b rc.1 rc.2 2) true
            have h2 := expectimaxF_den_pos sampler d (placeTile b rc.1 rc.2 4) true
            positivity
          rw [← interpF_foldr_fracAdd _ hdens]
          have hnum : 0 < (if 6 < (emptyCells b.grid).length then 6
              else (emptyCells b.grid).length) := by
            split
            · norm_num
            · cases hc : emptyCells b.grid with
              | nil => exact absurd hc hcells
              | cons c cs => simp
          rw [interpF_fracDivNat _ _ (foldr_fracAdd_den_pos _ hdens) hnum]

lemma candScoreR_eq (sampler : List (Nat × Nat) → List (Nat × Nat))
    (sp : AISpawner) (b : Board) (rc : Nat × Nat)
    (hd : sp.search_depth ≤ 5)
    (hp : ∀ x ∈ b.grid.flatten, x = 0 ∨ x = 2 ^ natLog2 x)
    (hb : ∀ x ∈ b.grid.flatten, x * 2 ^ movesLeft sp.search_depth true < 64) :
    candScoreR sampler sp b rc = interpF (candScoreF sampler sp b rc) := by
  have hvb : ∀ v : Nat, v ≤ 4 → v * 2 ^ movesLeft sp.search_depth true < 64 := by
    intro v hv4
    have h3 : movesLeft sp.search_depth true ≤ 3 := by
      unfold movesLeft
      simp only [if_true]
      omega
    have hpow : 2 ^ movesLeft sp.search_depth true ≤ 2 ^ 3 :=
      Nat.pow_le_pow_right (by norm_num) h3
    have := Nat.mul_le_mul hv4 hpow
    omega
  have hplace : ∀ v : Nat, v = 2 ∨ v = 4 →
      expectimaxR sampler sp.search_depth (placeTile b rc.1 rc.2 v) true =
        interpF (expectimaxF sampler sp.search_depth (placeTile b rc.1 rc.2 v) true) := by
    intro v hv24
    apply expectimax_bridge sampler sp.search_depth hd true
    · apply setCell_pow2 _ _ _ _ hp
      rcases hv24 with rfl | rfl
      · exact Or.inr (by decide)
      · exact Or.inr (by decide)
    · apply setCell_bound _ _ _ _ _ hb
      apply hvb
      rcases hv24 with rfl | rfl <;> omega
  unfold candScoreR evaluate_spawn candScoreF
  rw [interpF_fracWeighted _ _ (expectimaxF_den_pos sampler _ _ _)
    (expectimaxF_den_pos sampler _ _ _)]
  rw [hplace 2 (Or.inl rfl), hplace 4 (Or.inr rfl)]

lemma spawn_tile_easy_eq (sampler : List (Nat × Nat) → List (Nat × Nat))
    (sp : AISpawner) (b : Board) (val idx : Nat) (heasy : sp.difficulty = "easy")
    (c0 : Nat × Nat) (rest : List (Nat × Nat)) (hcells : emptyCells b.grid = c0 :: rest) :
    spawn_tile sampler sp b val idx =
      (placeTile b (lastMaxBy (candScoreR sampler sp b) c0 rest).1
        (lastMaxBy (candScoreR sampler sp b) c0 rest).2 val, true) := by
  have hmed : ¬sp.difficulty = "medium" := by rw [heasy]; decide
  have hne : emptyCells b.grid ≠ [] := by rw [hcells]; exact List.cons_ne_nil _ _
  unfold spawn_tile
  rw [if_neg hmed, if_neg hne]
  set key : (Nat × Nat) → ℝ := candScoreR sampler sp b with hkey
  set f : (Nat × Nat) → ℝ × (Nat × Nat) := fun rc => (key rc, rc) with hf
  have hsort : stableSort (fun s : ℝ × (Nat × Nat) => s.1) ((emptyCells b.grid).map f) =
      (stableSort key (emptyCells b.grid)).map f :=
    stableSort_map _ key f (fun rc => rfl) _
  have hlast : (stableSort key (emptyCells b.grid)).getLast? =
      some (lastMaxBy key c0 rest) := by
    rw [hcells]
    exact stableSort_getLast? key c0 rest
  simp only [heasy, if_true, hsort]
  rw [List.getLastD_eq_getLast?, List.getLast?_map, hlast]
  rfl

lemma spawn_tile_hard_eq (sampler : List (Nat × Nat) → List (Nat × Nat))
    (sp : AISpawner) (b : Board) (val idx : Nat)
    (hmed : sp.difficulty ≠ "medium") (heasy : sp.difficulty ≠ "easy")
    (c0 : Nat × Nat) (rest : List (Nat × Nat)) (hcells : emptyCells b.grid = c0 :: rest) :
    spawn_tile sampler sp b val idx =
      (placeTile b (firstMinBy (candScoreR sampler sp b) c0 rest).1
        (firstMinBy (candScoreR sampler sp b) c0 rest).2 val, true) := by
  have hne : emptyCells b.grid ≠ [] := by rw [hcells]; exact List.cons_ne_nil _ _
  unfold spawn_tile
  rw [if_neg hmed, if_neg hne]
  set key : (Nat × Nat) → ℝ := candScoreR sampler sp b with hkey
  set f : (Nat × Nat) → ℝ × (Nat × Nat) := fun rc => (key rc, rc) with hf
  have hsort : stableSort (fun s : ℝ × (Nat × Nat) => s.1) ((emptyCells b.grid).map f) =
      (stableSort key (emptyCells b.grid)).map f :=
    stableSort_map _ key f (fun rc => rfl) _
  have hhead : (stableSort key (emptyCells b.grid)).head? =
      some (firstMinBy key c0 rest) := by
    rw [hcells]
    exact stableSort_head? key c0 rest
  simp only [heasy, if_false, hsort]
  rw [List.headD_eq_head?, List.head?_map, hhead]
  rfl

/-- C6 amended: on non-medium difficulties the spawner commits the tile at
an extremal-score empty cell, with ties broken by enumeration order in
opposite directions: `easy` picks the cell of maximal candidate score and,
among ties, the latest enumerated one (every cell enumerated after it
scores strictly lower), while `hard` picks the cell of minimal candidate
score and, among ties, the earliest enumerated one (every cell enumerated
before it scores strictly higher). -/
theorem spawn_commits_extremal (sampler : List (Nat × Nat) → List (Nat × Nat))
    (sp : AISpawner) (b : Board) (val idx : Nat) (c0 : Nat × Nat)
    (rest : List (Nat × Nat)) (hcells : emptyCells b.grid = c0 :: rest) :
    (sp.difficulty = "easy" →
      spawn_tile sampler sp b val idx =
        (placeTile b (lastMaxBy (candScoreR sampler sp b) c0 rest).1
          (lastMaxBy (candScoreR sampler sp b) c0 rest).2 val, true) ∧
      ∃ (i : Nat) (hi : i < (c0 :: rest).length),
        (c0 :: rest).get ⟨i, hi⟩ = lastMaxBy (candScoreR sampler sp b) c0 rest ∧
        (∀ y ∈ c0 :: rest, candScoreR sampler sp b y ≤
          candScoreR sampler sp b (lastMaxBy (candScoreR sampler sp b) c0 rest)) ∧
        ∀ (j : Nat) (hj : j < (c0 :: rest).length), i < j →
          candScoreR sampler sp b ((c0 :: rest).get ⟨j, hj⟩) <
            candScoreR sampler sp b (lastMaxBy (candScoreR sampler sp b) c0 rest)) ∧
    (sp.difficulty = "hard" →
      spawn_tile sampler sp b val idx =
        (placeTile b (firstMinBy (candScoreR sampler sp b) c0 rest).1
          (firstMinBy (candScoreR sampler sp b) c0 rest).2 val, true) ∧
      ∃ (i : Nat) (hi : i < (c0 :: rest).length),
        (c0 :: rest).get ⟨i, hi⟩ = firstMinBy (candScoreR sampler sp b) c0 rest ∧
        (∀ y ∈ c0 :: rest, candScoreR sampler sp b (firstMinBy (candScoreR sampler sp b) c0 rest) ≤
          candScoreR sampler sp b y) ∧
        ∀ (j : Nat) (hj : j < (c0 :: rest).length), j < i →
          candScoreR sampler sp b (firstMinBy (candScoreR sampler sp b) c0 rest) <
            candScoreR sampler sp b ((c0 :: rest).get ⟨j, hj⟩)) := by
  constructor
  · intro heasy
    exact ⟨spawn_tile_easy_eq sampler sp b val idx heasy c0 rest hcells,
      lastMaxBy_spec (candScoreR sampler sp b) c0 rest⟩
  · intro hhard
    have hmed : sp.difficulty ≠ "medium" := by rw [hhard]; decide
    have heasy : sp.difficulty ≠ "easy" := by rw [hhard]; decide
    exact ⟨spawn_tile_hard_eq sampler sp b val idx hmed heasy c0 rest hcells,
      firstMinBy_spec (candScoreR sampler sp b) c0 rest⟩

/-- A 2×2 board, symmetric across the main diagonal, whose two empty cells
(0,1) and (1,0) receive exactly equal candidate scores. -/
def tieBoard : Board :=
  { grid := [[2, 0], [0, 4]]
    score := 0
    high_tile := 4
    game_over := false
    won := false
    highscore := 0 }

/-- Witness for the amended C6: the easy spawner on `tieBoard` commits at
the `lastMaxBy` cell. -/
theorem spawn_commits_extremal_witness :
    spawn_tile (fun l => l) (mkAISpawner "easy" 2) tieBoard 2 0 =
      (placeTile tieBoard
        (lastMaxBy (candScoreR (fun l => l) (mkAISpawner "easy" 2) tieBoard) (0, 1)
          [(1, 0)]).1
        (lastMaxBy (candScoreR (fun l => l) (mkAISpawner "easy" 2) tieBoard) (0, 1)
          [(1, 0)]).2 2,
       true) :=
  ((spawn_commits_extremal (fun l => l) (mkAISpawner "easy" 2) tieBoard 2 0 (0, 1) [(1, 0)]
    (by decide)).1 (by decide)).1

/-- Counterexample to C6 as stated: on `tieBoard` the two empty cells tie
exactly for the maximal candidate score, the row-major enumeration lists
(0,1) before (1,0), yet the easy spawner commits at (1,0) — the latest
enumerated tied cell, not the earliest (Python's stable ascending sort
followed by taking the last element keeps the later of two equal keys
last). -/
theorem spawn_easy_tie_counterexample :
    candScoreR (fun l => l) (mkAISpawner "easy" 2) tieBoard (0, 1) =
      candScoreR (fun l => l) (mkAISpawner "easy" 2) tieBoard (1, 0) ∧
    emptyCells tieBoard.grid = [(0, 1), (1, 0)] ∧
    spawn_tile (fun l => l) (mkAISpawner "easy" 2) tieBoard 2 0 =
      (placeTile tieBoard 1 0 2, true) ∧
    placeTile tieBoard 1 0 2 ≠ placeTile tieBoard 0 1 2 := by
  have hd : (mkAISpawner "easy" 2).search_depth ≤ 5 := by decide
  have hp : ∀ x ∈ tieBoard.grid.flatten, x = 0 ∨ x = 2 ^ natLog2 x := by decide
  have hb : ∀ x ∈ tieBoard.grid.flatten,
      x * 2 ^ movesLeft (mkAISpawner "easy" 2).search_depth true < 64 := by decide
  have htie : candScoreR (fun l => l) (mkAISpawner "easy" 2) tieBoard (0, 1) =
      candScoreR (fun l => l) (mkAISpawner "easy" 2) tieBoard (1, 0) := by
    rw [candScoreR_eq _ _ _ _ hd hp hb, candScoreR_eq _ _ _ _ hd hp hb]
    have hF : candScoreF (fun l => l) (mkAISpawner "easy" 2) tieBoard (0, 1) =
        candScoreF (fun l => l) (mkAISpawner "easy" 2) tieBoard (1, 0) := by
      unfold candScoreF
      rw [show (mkAISpawner "easy" 2).search_depth = Nat.succ (Nat.succ 0) from rfl]
      decide
    rw [hF]
  have hlm : lastMaxBy (candScoreR (fun l => l) (mkAISpawner "easy" 2) tieBoard) (0, 1)
      [(1, 0)] = (1, 0) := by
    unfold lastMaxBy
    rw [show lastMaxBy (candScoreR (fun l => l) (mkAISpawner "easy" 2) tieBoard) (1, 0)
      ([] : List (Nat × Nat)) = (1, 0) from rfl]
    rw [htie, if_neg (lt_irrefl _)]
  refine ⟨htie, by decide, ?_, by decide⟩
  rw [spawn_tile_easy_eq (fun l => l) (mkAISpawner "easy" 2) tieBoard 2 0 (by decide)
    (0, 1) [(1, 0)] (by decide), hlm]
